import Mathlib

set_option maxHeartbeats 1000000

/-!
Verification development for the REDLINE core (redline-core): a shallow
embedding of the indentation-sensitive lexer (lexer.rs) and the
recursive-descent parser (parser.rs), together with theorems about the
claims of the specification. Machine integers (i64) are modelled as `Int`
with an explicit range check; the `f64` payload of float tokens is
abstracted as its decimal lexeme, which no claim inspects. Character
classification (`is_alphabetic`, `is_numeric`, `is_alphanumeric`) is
modelled with the ASCII classifiers `Char.isAlpha`, `Char.isDigit`,
`Char.isAlphanum`, which agree with the Rust (Unicode) classifiers on all
ASCII inputs. The stateful Rust loops are embedded in emit style: each
loop iteration returns the tokens it pushes, and the top level
concatenates them, which is observationally the same as pushing into a
mutable vector. Recursion that is bounded in Rust only by cursor progress
is given an explicit fuel argument that provably never runs out on the
inputs the theorems speak about.
-/

namespace Redline

/-- Token kinds produced by the lexer, mirroring `TokenType` in lexer.rs.
The `f64` payload of `Float` is abstracted as its source lexeme. -/
inductive TokenType where
  | varKw | valKw | defKw | pubKw | printKw | returnKw | ifKw | elseKw | trueKw | falseKw
  | whileKw | forKw | inKw | importKw | classKw | thisKw | tryKw | catchKw | newKw
  | breakKw | continueKw
  | ident (s : String)
  | int (n : Int)
  | float (lexeme : String)
  | str (s : String)
  | fstring (s : String)
  | typeName (s : String)
  | op (s : String)
  | arrow | colon | assign | lparen | rparen | lbracket | rbracket | lbrace | rbrace
  | comma | newline | range | dot
  | indent | dedent
  | eof
deriving DecidableEq

/-- A token with its 1-based source position, mirroring `Token` in lexer.rs. -/
structure Token where
  tokenType : TokenType
  line : Nat
  column : Nat
deriving DecidableEq

/-- Lexical error, mirroring `LexerError` in lexer.rs. -/
structure LexerError where
  message : String
  line : Nat
  column : Nat
deriving DecidableEq

/-- Position update of `Lexer::advance` for one consumed character. -/
def adv (c : Char) (line col : Nat) : Nat × Nat :=
  if c = '\n' then (line + 1, 1) else (line, col + 1)

/-- Leading-whitespace measurement at line start (lexer.rs lines 82-96):
counts a space as 1 and a tab as 4, stops at the first other character;
a newline or carriage return marks an empty line. Returns the counted
width, the empty-line flag, and the input after the measured whitespace. -/
def countIndent : List Char → Nat → Nat × Bool × List Char
  | [], w => (w, false, [])
  | c :: cs, w =>
    if c = ' ' then countIndent cs (w + 1)
    else if c = '\t' then countIndent cs (w + 4)
    else if c = '\n' ∨ c = '\r' then (w, true, c :: cs)
    else (w, false, c :: cs)

/-- The dedent-popping loop of lexer.rs lines 104-107: pop while the new
width is smaller than the stack top, emitting one Dedent per pop. -/
def popDedents (w line col : Nat) : List Nat → List Token × List Nat
  | [] => ([], [])
  | t :: st =>
    if w < t then
      let (ds, st') := popDedents w line col st
      (Token.mk .dedent line col :: ds, st')
    else ([], t :: st)

/-- The string-body scanner shared by string and f-string literals
(lexer.rs lines 173-187 and 199-213). Consumes characters after the
opening quote up to a closing quote, translating the escapes
`\n \t \r \\ \"` and passing any other escaped character through
verbatim. Returns `(some (content, rest), line, col)` past the closing
quote, or `(none, line, col)` at end of input (unterminated). -/
def scanStr : List Char → Nat → Nat → List Char → Option (List Char × List Char) × Nat × Nat
  | [], line, col, _ => (none, line, col)
  | c :: cs, line, col, acc =>
    if c = '"' then (some (acc.reverse, cs), line, col + 1)
    else if c = '\\' then
      match cs with
      | [] =>
        let (l1, c1) := adv c line col
        (none, l1, c1)
      | d :: ds =>
        let mapped :=
          if d = 'n' then '\n'
          else if d = 't' then '\t'
          else if d = 'r' then '\r'
          else d
        let (l1, c1) := adv c line col
        let (l2, c2) := adv d l1 c1
        scanStr ds l2 c2 (mapped :: acc)
    else
      let (l1, c1) := adv c line col
      scanStr cs l1 c1 (c :: acc)

/-- The number scanner (lexer.rs lines 256-267): accumulates digits, a
single dot flips to float mode, a `..` lookahead terminates the number,
and a second dot in the same number is the error
"Invalid number: multiple decimal points" at the lexer's current
position (the position of that second dot). -/
def scanNum : List Char → Nat → Nat → List Char → Bool →
    Except LexerError (List Char × Bool × List Char × Nat)
  | [], _, col, acc, isFloat => .ok (acc.reverse, isFloat, [], col)
  | c :: cs, line, col, acc, isFloat =>
    if c.isDigit then scanNum cs line (col + 1) (c :: acc) isFloat
    else if c = '.' then
      match cs with
      | '.' :: cs' => .ok (acc.reverse, isFloat, c :: '.' :: cs', col)
      | _ =>
        if isFloat then
          .error ⟨"Invalid number: multiple decimal points", line, col⟩
        else scanNum cs line (col + 1) (c :: acc) true
    else .ok (acc.reverse, isFloat, c :: cs, col)

/-- Identifier scanner: maximal run of alphanumerics or underscores
(lexer.rs lines 237-241). -/
def scanIdent : List Char → Nat → List Char → List Char × List Char × Nat
  | [], col, acc => (acc.reverse, [], col)
  | c :: cs, col, acc =>
    if c.isAlphanum ∨ c = '_' then scanIdent cs (col + 1) (c :: acc)
    else (acc.reverse, c :: cs, col)

/-- Comment skipper (lexer.rs line 170): consume to end of line. -/
def skipComment : List Char → Nat → List Char × Nat
  | [], col => ([], col)
  | c :: cs, col => if c = '\n' then (c :: cs, col) else skipComment cs (col + 1)

/-- Keyword classification of an identifier lexeme (lexer.rs lines 242-253). -/
def classify (s : String) : TokenType :=
  match s with
  | "var" => .varKw
  | "val" => .valKw
  | "def" => .defKw
  | "if" => .ifKw
  | "else" => .elseKw
  | "pub" => .pubKw
  | "return" => .returnKw
  | "print" => .printKw
  | "true" => .trueKw
  | "false" => .falseKw
  | "while" => .whileKw
  | "for" => .forKw
  | "in" => .inKw
  | "import" => .importKw
  | "class" => .classKw
  | "this" => .thisKw
  | "try" => .tryKw
  | "catch" => .catchKw
  | "new" => .newKw
  | "break" => .breakKw
  | "continue" => .continueKw
  | "int" => .typeName s
  | "float" => .typeName s
  | "string" => .typeName s
  | "bool" => .typeName s
  | "list" => .typeName s
  | "void" => .typeName s
  | "dict" => .typeName s
  | _ => .ident s

/-- Keyword classification in the dedicated `f` branch (lexer.rs
lines 227-232), which only distinguishes `false`, `for` and `float`. -/
def classifyF (s : String) : TokenType :=
  match s with
  | "false" => .falseKw
  | "for" => .forKw
  | "float" => .typeName s
  | _ => .ident s

/-- Decimal digits to a natural number. -/
def digitsToNat (cs : List Char) : Nat :=
  cs.foldl (fun n c => 10 * n + (c.toNat - 48)) 0

/-- Largest i64 value; `"...".parse::<i64>()` on a digit string fails
exactly when the value exceeds it. -/
def i64Max : Nat := 9223372036854775807

/-- Line-start indentation handling (lexer.rs lines 81-115). Returns the
emitted Indent/Dedent tokens, the input after the consumed whitespace,
the updated column, and the updated indent stack. When the column is not
1, or the line is empty, nothing happens. -/
def lineStart (input : List Char) (line col : Nat) (stack : List Nat) :
    Except LexerError (List Token × List Char × Nat × List Nat) :=
  if col = 1 then
    let (w, isEmpty, restAfter) := countIndent input 0
    if isEmpty then .ok ([], input, col, stack)
    else
      let top := stack.head?.getD 0
      if w > top then .ok ([Token.mk .indent line col], restAfter, w + 1, w :: stack)
      else if w < top then
        let (ds, stack') := popDedents w line col stack
        match stack'.head? with
        | some t =>
          if w = t then .ok (ds, restAfter, w + 1, stack')
          else .error ⟨"Unindent does not match any outer indentation level", line, col⟩
        | none => .error ⟨"Unindent does not match any outer indentation level", line, col⟩
      else .ok ([], restAfter, w + 1, stack)
  else .ok ([], input, col, stack)

/-- Scan a single token at the current position (the big match of
lexer.rs lines 120-282). `col` is the start column of the token.
Returns the emitted tokens (zero or one), the remaining input, and the
updated line and column. -/
def scanToken (c : Char) (cs : List Char) (line col : Nat) :
    Except LexerError (List Token × List Char × Nat × Nat) :=
  if c = ' ' ∨ c = '\r' ∨ c = '\t' then .ok ([], cs, line, col + 1)
  else if c = '\n' then .ok ([Token.mk .newline line col], cs, line + 1, 1)
  else if c = ':' then .ok ([Token.mk .colon line col], cs, line, col + 1)
  else if c = '(' then .ok ([Token.mk .lparen line col], cs, line, col + 1)
  else if c = ')' then .ok ([Token.mk .rparen line col], cs, line, col + 1)
  else if c = '[' then .ok ([Token.mk .lbracket line col], cs, line, col + 1)
  else if c = ']' then .ok ([Token.mk .rbracket line col], cs, line, col + 1)
  else if c = '\x7b' then .ok ([Token.mk .lbrace line col], cs, line, col + 1)
  else if c = '\x7d' then .ok ([Token.mk .rbrace line col], cs, line, col + 1)
  else if c = ',' then .ok ([Token.mk .comma line col], cs, line, col + 1)
  else if c = '=' then
    match cs with
    | '=' :: cs' => .ok ([Token.mk (.op "==") line col], cs', line, col + 2)
    | _ => .ok ([Token.mk .assign line col], cs, line, col + 1)
  else if c = '.' then
    match cs with
    | '.' :: cs' => .ok ([Token.mk .range line col], cs', line, col + 2)
    | _ => .ok ([Token.mk .dot line col], cs, line, col + 1)
  else if c = '>' ∨ c = '<' ∨ c = '!' then
    match cs with
    | '=' :: cs' => .ok ([Token.mk (.op (String.mk [c, '='])) line col], cs', line, col + 2)
    | _ => .ok ([Token.mk (.op (String.mk [c])) line col], cs, line, col + 1)
  else if c = '+' ∨ c = '*' ∨ c = '/' then
    .ok ([Token.mk (.op (String.mk [c])) line col], cs, line, col + 1)
  else if c = '-' then
    match cs with
    | '>' :: cs' => .ok ([Token.mk .arrow line col], cs', line, col + 2)
    | _ => .ok ([Token.mk (.op "-") line col], cs, line, col + 1)
  else if c = '#' then
    let (rest, col') := skipComment (c :: cs) col
    .ok ([], rest, line, col')
  else if c = '"' then
    match scanStr cs line (col + 1) [] with
    | (some (content, rest), line', col') =>
      .ok ([Token.mk (.str (String.mk content)) line' col], rest, line', col')
    | (none, line', _) => .error ⟨"Unterminated string literal", line', col⟩
  else if c = 'f' then
    match cs with
    | '"' :: cs2 =>
      match scanStr cs2 line (col + 2) [] with
      | (some (content, rest), line', col') =>
        .ok ([Token.mk (.fstring (String.mk content)) line' col], rest, line', col')
      | (none, line', _) => .error ⟨"Unterminated f-string literal", line', col⟩
    | _ =>
      let (id, rest, col') := scanIdent (c :: cs) col []
      .ok ([Token.mk (classifyF (String.mk id)) line col], rest, line, col')
  else if c.isAlpha then
    let (id, rest, col') := scanIdent (c :: cs) col []
    .ok ([Token.mk (classify (String.mk id)) line col], rest, line, col')
  else if c.isDigit then
    match scanNum (c :: cs) line col [] false with
    | .error e => .error e
    | .ok (lexeme, isFloat, rest, col') =>
      if isFloat then
        .ok ([Token.mk (.float (String.mk lexeme)) line col], rest, line, col')
      else
        let digits := lexeme
        if digitsToNat digits ≤ i64Max then
          .ok ([Token.mk (.int (Int.ofNat (digitsToNat digits))) line col], rest, line, col')
        else .error ⟨"Invalid integer: " ++ String.mk digits, line, col⟩
  else .error ⟨"Unknown character: " ++ String.mk [c], line, col⟩

/-- The main lexer loop (`Lexer::tokenize`, lexer.rs lines 80-283),
in emit style: returns the emitted tokens, the final indent stack, and
the final line and column. Each iteration consumes at least one
character, so the fuel `input.length + 1` supplied by `tokenize` never
runs out; the fuel-exhaustion branch is an unreachable error. -/
def lexLoop : Nat → List Char → Nat → Nat → List Nat →
    Except LexerError (List Token × List Nat × Nat × Nat)
  | 0, _, _, _, _ => .error ⟨"lexer fuel exhausted", 0, 0⟩
  | fuel + 1, input, line, col, stack =>
    match input with
    | [] => .ok ([], stack, line, col)
    | c0 :: cs0 =>
      match lineStart (c0 :: cs0) line col stack with
      | .error e => .error e
      | .ok (ts1, input1, col1, stack1) =>
        match input1 with
        | [] => .ok (ts1, stack1, line, col1)
        | c :: cs =>
          match scanToken c cs line col1 with
          | .error e => .error e
          | .ok (ts2, rest, line2, col2) =>
            match lexLoop fuel rest line2 col2 stack1 with
            | .error e => .error e
            | .ok (ts3, stack3, l3, c3) => .ok (ts1 ++ ts2 ++ ts3, stack3, l3, c3)

/-- `Lexer::tokenize` (lexer.rs lines 76-291): run the main loop from
line 1, column 1 with indent stack `[0]`; at end of input emit one
Dedent per indentation level above the base, then EOF. -/
def tokenize (input : List Char) : Except LexerError (List Token) :=
  match lexLoop (input.length + 1) input 1 1 [0] with
  | .error e => .error e
  | .ok (ts, stack, line, col) =>
    .ok (ts ++ List.replicate (stack.length - 1) (Token.mk .dedent line col) ++
      [Token.mk .eof line col])

/-- REDLINE types (ast.rs `Type`). -/
inductive Typ where
  | int | float | string | bool | void
  | list (inner : Typ)
  | dict (key value : Typ)
  | classT (name : String)
deriving DecidableEq

/-- Literal values (ast.rs `Literal`); the `f64` payload is abstracted
as its decimal lexeme. -/
inductive Lit where
  | int (n : Int)
  | float (lexeme : String)
  | str (s : String)
  | bool (b : Bool)
deriving DecidableEq

/-- Binary operators (ast.rs `BinaryOperator`). -/
inductive BinOp where
  | add | subtract | multiply | divide
  | equal | notEqual | greaterThan | lessThan | greaterThanEqual | lessThanEqual
deriving DecidableEq

/-- Expressions (ast.rs `Expression`). -/
inductive Expr where
  | lit (l : Lit)
  | listLit (es : List Expr)
  | dictLit (entries : List (Expr × Expr))
  | ident (name : String)
  | binaryOp (op : BinOp) (left right : Expr)
  | call (callee : Expr) (args : List Expr)
  | index (list idx : Expr)
  | get (object : Expr) (name : String)
  | this
  | new (className : String) (args : List Expr)

mutual

/-- Statements (ast.rs `Statement`). -/
inductive Stmt where
  | importS (path : String)
  | declaration (isPublic isMutable : Bool) (name : String) (dataType : Typ) (initializer : Expr)
  | assignment (target value : Expr)
  | ifS (condition : Expr) (consequence : List Stmt) (alternative : Option (List Stmt))
  | whileS (condition : Expr) (body : List Stmt)
  | forS (iterator : String) (start stop : Expr) (body : List Stmt)
  | print (e : Expr)
  | expression (e : Expr)
  | functionDefinition (isPublic : Bool) (name : String) (params : List (String × Typ))
      (returnType : Typ) (body : List Stmt)
  | ret (e : Option Expr)
  | classS (isPublic : Bool) (name : String) (members : List ClassMember)
  | tryCatch (tryBlock : List Stmt) (catchVar : String) (catchBlock : List Stmt)
  | breakS
  | continueS

/-- Class members (ast.rs `ClassMember`): a Variable wraps a Declaration
statement, a Method or Constructor wraps a FunctionDefinition statement. -/
inductive ClassMember where
  | variable (s : Stmt)
  | method (s : Stmt)
  | constructor (s : Stmt)

end

/-- The root AST node (ast.rs `Program`). -/
structure Program where
  statements : List Stmt

/-- Parser error (parser.rs `ParserError`). -/
structure ParserError where
  message : String
  line : Nat
  column : Nat
deriving DecidableEq

/-- Rust `Debug` rendering of a token kind, as interpolated into parser
error messages by `{:?}`. -/
def debugRepr : TokenType → String
  | .varKw => "Var" | .valKw => "Val" | .defKw => "Def" | .pubKw => "Pub"
  | .printKw => "Print" | .returnKw => "Return" | .ifKw => "If" | .elseKw => "Else"
  | .trueKw => "True" | .falseKw => "False" | .whileKw => "While" | .forKw => "For"
  | .inKw => "In" | .importKw => "Import" | .classKw => "Class" | .thisKw => "This"
  | .tryKw => "Try" | .catchKw => "Catch" | .newKw => "New" | .breakKw => "Break"
  | .continueKw => "Continue"
  | .ident s => "Ident(\"" ++ s ++ "\")"
  | .int n => "Int(" ++ toString n ++ ")"
  | .float s => "Float(" ++ s ++ ")"
  | .str s => "Str(\"" ++ s ++ "\")"
  | .fstring s => "FString(\"" ++ s ++ "\")"
  | .typeName s => "Type(\"" ++ s ++ "\")"
  | .op s => "Op(\"" ++ s ++ "\")"
  | .arrow => "Arrow" | .colon => "Colon" | .assign => "Assign"
  | .lparen => "LParen" | .rparen => "RParen" | .lbracket => "LBracket"
  | .rbracket => "RBracket" | .lbrace => "LBrace" | .rbrace => "RBrace"
  | .comma => "Comma" | .newline => "Newline" | .range => "Range" | .dot => "Dot"
  | .indent => "Indent" | .dedent => "Dedent" | .eof => "EOF"

/-- `Parser::current_token` (parser.rs lines 27-29): the token at the
cursor, or a synthesized EOF token at line 0, column 0 when the cursor
is at or past the end of the slice. -/
def currentToken (ts : List Token) (pos : Nat) : Token :=
  (ts.get? pos).getD (Token.mk .eof 0 0)

/-- `Parser::error` (parser.rs lines 46-49): a `ParserError` carrying
the current token's position. -/
def mkError (ts : List Token) (pos : Nat) (message : String) : ParserError :=
  ⟨message, (currentToken ts pos).line, (currentToken ts pos).column⟩

/-- `Parser::consume_if` (parser.rs lines 37-44): advance over the
current token when it equals the expected kind. Returns whether it
matched together with the new cursor. -/
def consumeIf (ts : List Token) (pos : Nat) (tt : TokenType) : Bool × Nat :=
  if (currentToken ts pos).tokenType = tt then (true, pos + 1) else (false, pos)

/-- `Parser::expect` (parser.rs lines 51-58). -/
def expect (ts : List Token) (pos : Nat) (expected : TokenType) (errorMsg : String) :
    Except ParserError Nat :=
  if (currentToken ts pos).tokenType = expected then .ok (pos + 1)
  else .error (mkError ts pos (errorMsg ++ ": Expected " ++ debugRepr expected ++
    ", got " ++ debugRepr (currentToken ts pos).tokenType))

/-- The `while self.consume_if(Newline)` loops of parse_statement and
the block parsers. The internal fuel `ts.length - pos` is exact: past
the end of the slice the current token is EOF, never Newline. -/
def skipNewlinesGo : Nat → List Token → Nat → Nat
  | 0, _, pos => pos
  | fuel + 1, ts, pos =>
    if (currentToken ts pos).tokenType = .newline then skipNewlinesGo fuel ts (pos + 1)
    else pos

def skipNewlines (ts : List Token) (pos : Nat) : Nat :=
  skipNewlinesGo (ts.length - pos) ts pos

/-- `Parser::get_precedence` (parser.rs lines 286-297). -/
def getPrecedence : TokenType → Nat
  | .dot => 7
  | .op s =>
    match s with
    | "*" => 5 | "/" => 5
    | "+" => 4 | "-" => 4
    | "==" => 3 | "!=" => 3 | ">" => 3 | "<" => 3 | ">=" => 3 | "<=" => 3
    | _ => 0
  | _ => 0

/-- `Parser::token_to_binary_op` (parser.rs lines 299-312); the error
carries the parser's current position at the time of the call. -/
def tokenToBinaryOp (ts : List Token) (pos : Nat) : TokenType → Except ParserError BinOp
  | .op s =>
    match s with
    | "+" => .ok .add | "-" => .ok .subtract
    | "*" => .ok .multiply | "/" => .ok .divide
    | "==" => .ok .equal | "!=" => .ok .notEqual
    | ">" => .ok .greaterThan | "<" => .ok .lessThan
    | ">=" => .ok .greaterThanEqual | "<=" => .ok .lessThanEqual
    | _ => .error (mkError ts pos ("Unknown binary operator: " ++ s))
  | tt => .error (mkError ts pos ("Expected operator token, got " ++ debugRepr tt))

/-- `Parser::parse_type` (parser.rs lines 60-95). The fuel only limits
the nesting depth of `list[...]`/`dict[...]` types and is always
sufficient when at least the length of the remaining slice. -/
def parseType : Nat → List Token → Nat → Except ParserError (Typ × Nat)
  | 0, _, _ => .error ⟨"parser fuel exhausted", 0, 0⟩
  | fuel + 1, ts, pos =>
    match (currentToken ts pos).tokenType with
    | .typeName tyStr =>
      match tyStr with
      | "int" => .ok (.int, pos + 1)
      | "float" => .ok (.float, pos + 1)
      | "string" => .ok (.string, pos + 1)
      | "bool" => .ok (.bool, pos + 1)
      | "void" => .ok (.void, pos + 1)
      | "list" => do
        let pos ← expect ts (pos + 1) .lbracket "Expected '[' after 'list'"
        let (inner, pos) ← parseType fuel ts pos
        let pos ← expect ts pos .rbracket "Expected ']' after list inner type"
        .ok (.list inner, pos)
      | "dict" => do
        let pos ← expect ts (pos + 1) .lbracket "Expected '[' after 'dict'"
        let (key, pos) ← parseType fuel ts pos
        let pos ← expect ts pos .comma "Expected ',' after dictionary key type"
        let (value, pos) ← parseType fuel ts pos
        let pos ← expect ts pos .rbracket "Expected ']' after dictionary value type"
        .ok (.dict key value, pos)
      | _ => .error (mkError ts pos ("Unknown built-in type: " ++ tyStr))
    | .ident name => .ok (.classT name, pos + 1)
    | tt => .error (mkError ts pos ("Expected type identifier, got " ++ debugRepr tt))

/-- The guard of the f-string literal-segment scan: true away from an
opening brace. -/
def notBrace (c : Char) : Bool := c ≠ '\x7b'

/-- The brace-matching scan inside an f-string body (parser.rs lines
115-123): given the characters after an opening brace and the current
brace depth, return the placeholder content and the rest after the
matching closing brace, or `none` when the brace is never closed. -/
def scanPlaceholder : List Char → Nat → Option (List Char × List Char)
  | [], _ => none
  | c :: cs, depth =>
    if c = '\x7d' then
      if depth = 1 then some ([], cs)
      else (scanPlaceholder cs (depth - 1)).map (fun p => (c :: p.1, p.2))
    else if c = '\x7b' then (scanPlaceholder cs (depth + 1)).map (fun p => (c :: p.1, p.2))
    else (scanPlaceholder cs depth).map (fun p => (c :: p.1, p.2))

/-- The f-string body loop of `parse_expression_primary` (parser.rs
lines 102-152), in emit style: it produces the list of parts, literal
text segments as string literals (empty segments skipped) and each
placeholder's parse wrapped in a `to_string` call. `inner` is the
"fresh Lexer + fresh Parser + parse_expression" run on a placeholder's
content; `errL`/`errC` is the position of the parser's current token
(used by the unclosed-brace error). Each step consumes at least the
opening brace, so fuel `s.length + 1` never runs out. -/
def parseFStringGo (inner : List Char → Except ParserError Expr) (errL errC : Nat) :
    Nat → List Char → Except ParserError (List Expr)
  | 0, _ => .error ⟨"parser fuel exhausted", 0, 0⟩
  | fuel + 1, s =>
    let lit := s.takeWhile notBrace
    let rest := s.dropWhile notBrace
    let litParts : List Expr := if lit = [] then [] else [.lit (.str (String.mk lit))]
    match rest with
    | [] => .ok litParts
    | _ :: tail =>
      match scanPlaceholder tail 1 with
      | none => .error ⟨"Unclosed '\x7b' in f-string", errL, errC⟩
      | some (content, rest') => do
        let e ← inner content
        let ps ← parseFStringGo inner errL errC fuel rest'
        .ok (litParts ++ .call (.ident "to_string") [e] :: ps)

/-- Fold the parts of an f-string into a left-associative chain of
additions (parser.rs lines 154-167); no parts yield the empty string
literal. -/
def foldParts : List Expr → Expr
  | [] => .lit (.str "")
  | p :: ps => ps.foldl (fun acc q => .binaryOp .add acc q) p

/-- One part of an f-string body: a literal text segment or a
placeholder's content. Spec-side notion used to state the f-string
expansion claims. -/
inductive FPart where
  | lit (s : List Char)
  | ph (content : List Char)
deriving DecidableEq

/-- Modelled from the spec: split an f-string body into its in-order
parts, literal text segments (empty ones skipped, as the code skips
them) and placeholder contents; `none` when some opening brace is
unclosed. Same fuel discipline as `parseFStringGo`. -/
def splitFGo : Nat → List Char → Option (List FPart)
  | 0, _ => none
  | fuel + 1, s =>
    let lit := s.takeWhile notBrace
    let rest := s.dropWhile notBrace
    let litParts : List FPart := if lit = [] then [] else [.lit lit]
    match rest with
    | [] => some litParts
    | _ :: tail =>
      match scanPlaceholder tail 1 with
      | none => none
      | some (content, rest') =>
        (splitFGo fuel rest').map (fun ps => litParts ++ .ph content :: ps)

/-- Modelled from the spec: the expression one part contributes, a
string literal for a text segment and a `to_string` call around the
placeholder's parse for a placeholder. -/
def specPartExpr (inner : List Char → Except ParserError Expr) :
    FPart → Except ParserError Expr
  | .lit s => .ok (.lit (.str (String.mk s)))
  | .ph content => (inner content).map (fun e => .call (.ident "to_string") [e])

/-- Modelled from the spec: the two-phase reading of f-string
expansion, "parse the body into a sequence of parts and fold them",
against which the interleaved code loop is verified. -/
def specExpandParts (inner : List Char → Except ParserError Expr) (errL errC : Nat)
    (fuel : Nat) (s : List Char) : Except ParserError (List Expr) :=
  match splitFGo fuel s with
  | none => .error ⟨"Unclosed '\x7b' in f-string", errL, errC⟩
  | some ps => ps.mapM (specPartExpr inner)

mutual

/-- `Parser::parse_expression` (parser.rs lines 329-331). -/
def parseExpression : Nat → List Token → Nat → Except ParserError (Expr × Nat)
  | 0, _, _ => .error ⟨"parser fuel exhausted", 0, 0⟩
  | fuel + 1, ts, pos => parseExpressionBinop fuel 0 ts pos
  termination_by structural fuel => fuel

/-- `Parser::parse_expression_binop` (parser.rs lines 314-327):
precedence climbing; the `while` loop is `binopLoop`. -/
def parseExpressionBinop : Nat → Nat → List Token → Nat → Except ParserError (Expr × Nat)
  | 0, _, _, _ => .error ⟨"parser fuel exhausted", 0, 0⟩
  | fuel + 1, minPrec, ts, pos => do
    let (left, pos) ← parseExpressionPrimary fuel ts pos
    binopLoop fuel minPrec left ts pos
  termination_by structural fuel => fuel

/-- The climbing loop of `parse_expression_binop`: while the current
token is not EOF and its precedence is non-zero and at least
`minPrec`, consume the operator and parse the right operand with
minimum precedence one higher. -/
def binopLoop : Nat → Nat → Expr → List Token → Nat → Except ParserError (Expr × Nat)
  | 0, _, _, _, _ => .error ⟨"parser fuel exhausted", 0, 0⟩
  | fuel + 1, minPrec, left, ts, pos =>
    let ct := currentToken ts pos
    if ct.tokenType = .eof then .ok (left, pos)
    else
      let prec := getPrecedence ct.tokenType
      if prec = 0 ∨ prec < minPrec then .ok (left, pos)
      else do
        let (right, pos') ← parseExpressionBinop fuel (prec + 1) ts (pos + 1)
        let op ← tokenToBinaryOp ts pos' ct.tokenType
        binopLoop fuel minPrec (.binaryOp op left right) ts pos'
  termination_by structural fuel => fuel

/-- `Parser::parse_expression_primary` (parser.rs lines 97-271):
dispatch on the current token, then run the postfix loop. -/
def parseExpressionPrimary : Nat → List Token → Nat → Except ParserError (Expr × Nat)
  | 0, _, _ => .error ⟨"parser fuel exhausted", 0, 0⟩
  | fuel + 1, ts, pos => do
    let token := currentToken ts pos
    let (e, pos') ←
      (match token.tokenType with
      | .fstring s => do
        let inner : List Char → Except ParserError Expr := fun content =>
          match tokenize content with
          | .error le => .error ⟨le.message, token.line, token.column⟩
          | .ok toks =>
            match parseExpression fuel toks 0 with
            | .error pe => .error pe
            | .ok (e, _) => .ok e
        let errTok := currentToken ts (pos + 1)
        match parseFStringGo inner errTok.line errTok.column (s.length + 1) s.toList with
        | .error pe => .error pe
        | .ok parts => .ok (foldParts parts, pos + 1)
      | .newKw =>
        (match (currentToken ts (pos + 1)).tokenType with
        | .ident className => do
          let p ← expect ts (pos + 2) .lparen "Expected '(' after class name in new expression"
          let (mr, p2) := consumeIf ts p .rparen
          if mr then .ok (.new className [], p2)
          else do
            let (args, p3) ← argsLoop fuel ts p
            let p4 ← expect ts p3 .rparen "Expected ')' after new expression arguments"
            .ok (.new className args, p4)
        | _ => .error (mkError ts (pos + 1) "Expected class name after 'new'"))
      | .thisKw => .ok (.this, pos + 1)
      | .int n => .ok (.lit (.int n), pos + 1)
      | .float s => .ok (.lit (.float s), pos + 1)
      | .str s => .ok (.lit (.str s), pos + 1)
      | .trueKw => .ok (.lit (.bool true), pos + 1)
      | .falseKw => .ok (.lit (.bool false), pos + 1)
      | .ident name => .ok (.ident name, pos + 1)
      | .lparen => do
        let (e, p) ← parseExpression fuel ts (pos + 1)
        let p2 ← expect ts p .rparen "Expected ')' after parenthesized expression"
        .ok (e, p2)
      | .lbracket => parseListLiteral fuel ts pos
      | .lbrace =>
        let (_, p) := consumeIf ts (pos + 1) .newline
        let (_, p) := consumeIf ts p .indent
        let (mr, p2) := consumeIf ts p .rbrace
        if mr then .ok (.dictLit [], p2)
        else do
          let (entries, p3) ← dictEntriesLoop fuel ts p
          let (_, p4) := consumeIf ts p3 .dedent
          let p5 ← expect ts p4 .rbrace "Expected '\x7d' after dictionary entries"
          .ok (.dictLit entries, p5)
      | tt => .error (mkError ts pos ("Expected a primary expression, got " ++ debugRepr tt))
      : Except ParserError (Expr × Nat))
    postfixLoop fuel e ts pos'
  termination_by structural fuel => fuel

/-- The dictionary-entry loop of the `LBrace` arm (parser.rs lines
215-232), in emit style. -/
def dictEntriesLoop : Nat → List Token → Nat → Except ParserError (List (Expr × Expr) × Nat)
  | 0, _, _ => .error ⟨"parser fuel exhausted", 0, 0⟩
  | fuel + 1, ts, pos => do
    let (_, p) := consumeIf ts pos .newline
    let (_, p) := consumeIf ts p .indent
    let (key, p) ← parseExpression fuel ts p
    let p ← expect ts p .colon "Expected ':' after dictionary key"
    let (value, p) ← parseExpression fuel ts p
    let (mc, p2) := consumeIf ts p .comma
    if mc then
      let (_, p3) := consumeIf ts p2 .newline
      let (rest, p4) ← dictEntriesLoop fuel ts p3
      .ok ((key, value) :: rest, p4)
    else
      let (_, p3) := consumeIf ts p2 .newline
      .ok ([(key, value)], p3)
  termination_by structural fuel => fuel

/-- The comma-separated expression loop shared by call arguments, `new`
arguments and list-literal elements (parser.rs lines 177-180, 246-249,
277-280), in emit style. -/
def argsLoop : Nat → List Token → Nat → Except ParserError (List Expr × Nat)
  | 0, _, _ => .error ⟨"parser fuel exhausted", 0, 0⟩
  | fuel + 1, ts, pos => do
    let (a, p) ← parseExpression fuel ts pos
    let (mc, p2) := consumeIf ts p .comma
    if mc then do
      let (rest, p3) ← argsLoop fuel ts p2
      .ok (a :: rest, p3)
    else .ok ([a], p2)
  termination_by structural fuel => fuel

/-- The postfix loop of `parse_expression_primary` (parser.rs lines
242-268): wrap the expression while the current token is `(`, `[`
or `.`. -/
def postfixLoop : Nat → Expr → List Token → Nat → Except ParserError (Expr × Nat)
  | 0, _, _, _ => .error ⟨"parser fuel exhausted", 0, 0⟩
  | fuel + 1, e, ts, pos =>
    let (mp, p) := consumeIf ts pos .lparen
    if mp then
      let (mr, p2) := consumeIf ts p .rparen
      if mr then postfixLoop fuel (.call e []) ts p2
      else do
        let (args, p3) ← argsLoop fuel ts p
        let p4 ← expect ts p3 .rparen "Expected ')' after function arguments"
        postfixLoop fuel (.call e args) ts p4
    else
      let (mb, pb) := consumeIf ts pos .lbracket
      if mb then do
        let (idx, p2) ← parseExpression fuel ts pb
        let p3 ← expect ts p2 .rbracket "Expected ']' after index expression"
        postfixLoop fuel (.index e idx) ts p3
      else
        let (md, pd) := consumeIf ts pos .dot
        if md then
          match (currentToken ts pd).tokenType with
          | .ident name => postfixLoop fuel (.get e name) ts (pd + 1)
          | _ => .error (mkError ts pd "Expected identifier after '.'")
        else .ok (e, pos)
  termination_by structural fuel => fuel

/-- `Parser::parse_list_literal` (parser.rs lines 273-284). -/
def parseListLiteral : Nat → List Token → Nat → Except ParserError (Expr × Nat)
  | 0, _, _ => .error ⟨"parser fuel exhausted", 0, 0⟩
  | fuel + 1, ts, pos => do
    let p ← expect ts pos .lbracket "Expected '[' to start a list literal"
    if (currentToken ts p).tokenType ≠ .rbracket then do
      let (elems, p2) ← argsLoop fuel ts p
      let p3 ← expect ts p2 .rbracket "Expected ']' to end a list literal"
      .ok (.listLit elems, p3)
    else do
      let p2 ← expect ts p .rbracket "Expected ']' to end a list literal"
      .ok (.listLit [], p2)
  termination_by structural fuel => fuel

/-- `Parser::parse_statement` (parser.rs lines 509-561). -/
def parseStatement : Nat → List Token → Nat → Except ParserError (Stmt × Nat)
  | 0, _, _ => .error ⟨"parser fuel exhausted", 0, 0⟩
  | fuel + 1, ts, pos0 =>
    let pos := skipNewlines ts pos0
    match (currentToken ts pos).tokenType with
    | .importKw => parseImportStatement fuel ts pos
    | .classKw => parseClassStatement fuel false ts pos
    | .tryKw => parseTryCatchStatement fuel ts pos
    | .breakKw => .ok (.breakS, pos + 1)
    | .continueKw => .ok (.continueS, pos + 1)
    | .printKw => do
      let p ← expect ts (pos + 1) .lparen "Expected '(' after 'print'"
      let (arg, p2) ← parseExpression fuel ts p
      let p3 ← expect ts p2 .rparen "Expected ')' after print argument"
      .ok (.print arg, p3)
    | .pubKw =>
      (match (currentToken ts (pos + 1)).tokenType with
      | .valKw => parseDeclaration fuel true ts (pos + 1)
      | .varKw => parseDeclaration fuel true ts (pos + 1)
      | .defKw => parseFunctionDefinition fuel true ts (pos + 1)
      | .classKw => parseClassStatement fuel true ts (pos + 1)
      | _ => .error (mkError ts (pos + 1) "Expected 'val', 'var', 'def', or 'class' after 'pub'"))
    | .valKw => parseDeclaration fuel false ts pos
    | .varKw => parseDeclaration fuel false ts pos
    | .defKw => parseFunctionDefinition fuel false ts pos
    | .ifKw => parseIfStatement fuel ts pos
    | .whileKw => parseWhileStatement fuel ts pos
    | .forKw => parseForStatement fuel ts pos
    | .returnKw =>
      let p := pos + 1
      if (currentToken ts p).tokenType = .newline ∨ (currentToken ts p).tokenType = .eof then
        .ok (.ret none, p)
      else do
        let (e, p2) ← parseExpression fuel ts p
        .ok (.ret (some e), p2)
    | _ => do
      let (target, p) ← parseExpression fuel ts pos
      let (ma, p2) := consumeIf ts p .assign
      if ma then do
        let (value, p3) ← parseExpression fuel ts p2
        .ok (.assignment target value, p3)
      else .ok (.expression target, p2)
  termination_by structural fuel => fuel

/-- `Parser::parse_block` (parser.rs lines 333-343). -/
def parseBlock : Nat → List Token → Nat → Except ParserError (List Stmt × Nat)
  | 0, _, _ => .error ⟨"parser fuel exhausted", 0, 0⟩
  | fuel + 1, ts, pos => do
    let p ← expect ts pos .indent "Expected indentation for block"
    blockLoop fuel ts p
  termination_by structural fuel => fuel

/-- The statement loop of `parse_block`, in emit style, followed by the
closing `expect(Dedent)`. -/
def blockLoop : Nat → List Token → Nat → Except ParserError (List Stmt × Nat)
  | 0, _, _ => .error ⟨"parser fuel exhausted", 0, 0⟩
  | fuel + 1, ts, pos =>
    if (currentToken ts pos).tokenType = .dedent ∨ (currentToken ts pos).tokenType = .eof then do
      let p ← expect ts pos .dedent "Expected dedent to end block"
      .ok ([], p)
    else
      let p := skipNewlines ts pos
      if (currentToken ts p).tokenType = .dedent then do
        let p2 ← expect ts p .dedent "Expected dedent to end block"
        .ok ([], p2)
      else do
        let (st, p2) ← parseStatement fuel ts p
        let (rest, p3) ← blockLoop fuel ts p2
        .ok (st :: rest, p3)
  termination_by structural fuel => fuel

/-- `Parser::parse_class_block` (parser.rs lines 345-373). -/
def parseClassBlock : Nat → List Token → Nat → Except ParserError (List ClassMember × Nat)
  | 0, _, _ => .error ⟨"parser fuel exhausted", 0, 0⟩
  | fuel + 1, ts, pos => do
    let p ← expect ts pos .indent "Expected indentation for class body"
    classLoop fuel ts p
  termination_by structural fuel => fuel

/-- The member loop of `parse_class_block`, in emit style. A member
introduced by `val`/`var` becomes Variable; one introduced by `def`
becomes Constructor exactly when the parsed function's name is
`init`, Method otherwise (the impossible non-FunctionDefinition case is
silently skipped, as in the Rust `if let`). -/
def classLoop : Nat → List Token → Nat → Except ParserError (List ClassMember × Nat)
  | 0, _, _ => .error ⟨"parser fuel exhausted", 0, 0⟩
  | fuel + 1, ts, pos =>
    if (currentToken ts pos).tokenType = .dedent ∨ (currentToken ts pos).tokenType = .eof then do
      let p ← expect ts pos .dedent "Expected dedent to end class body"
      .ok ([], p)
    else
      let p := skipNewlines ts pos
      if (currentToken ts p).tokenType = .dedent then do
        let p2 ← expect ts p .dedent "Expected dedent to end class body"
        .ok ([], p2)
      else
        let (isPub, p2) := consumeIf ts p .pubKw
        match (currentToken ts p2).tokenType with
        | .valKw => do
          let (decl, p3) ← parseDeclaration fuel isPub ts p2
          let (rest, p4) ← classLoop fuel ts p3
          .ok (.variable decl :: rest, p4)
        | .varKw => do
          let (decl, p3) ← parseDeclaration fuel isPub ts p2
          let (rest, p4) ← classLoop fuel ts p3
          .ok (.variable decl :: rest, p4)
        | .defKw => do
          let (m, p3) ← parseFunctionDefinition fuel isPub ts p2
          let (rest, p4) ← classLoop fuel ts p3
          match m with
          | .functionDefinition _ name _ _ _ =>
            if name = "init" then .ok (.constructor m :: rest, p4)
            else .ok (.method m :: rest, p4)
          | _ => .ok (rest, p4)
        | _ => .error (mkError ts p2 "Expected 'val', 'var', or 'def' in class body")
  termination_by structural fuel => fuel

/-- `Parser::parse_declaration` (parser.rs lines 375-392). -/
def parseDeclaration : Nat → Bool → List Token → Nat → Except ParserError (Stmt × Nat)
  | 0, _, _, _ => .error ⟨"parser fuel exhausted", 0, 0⟩
  | fuel + 1, isPublic, ts, pos => do
    let isMutable ←
      (match (currentToken ts pos).tokenType with
      | .valKw => .ok false
      | .varKw => .ok true
      | _ => .error (mkError ts pos "Expected 'val' or 'var'")
      : Except ParserError Bool)
    match (currentToken ts (pos + 1)).tokenType with
    | .ident name => do
      let p ← expect ts (pos + 2) .colon "Expected ':' after identifier in declaration"
      let (dataType, p2) ← parseType fuel ts p
      let p3 ← expect ts p2 .assign "Expected '=' in declaration"
      let (initializer, p4) ← parseExpression fuel ts p3
      .ok (.declaration isPublic isMutable name dataType initializer, p4)
    | _ => .error (mkError ts (pos + 1) "Expected identifier after var/val")

/-- `Parser::parse_function_definition` (parser.rs lines 394-425). -/
def parseFunctionDefinition : Nat → Bool → List Token → Nat → Except ParserError (Stmt × Nat)
  | 0, _, _, _ => .error ⟨"parser fuel exhausted", 0, 0⟩
  | fuel + 1, isPublic, ts, pos => do
    let p ← expect ts pos .defKw "Expected 'def'"
    match (currentToken ts p).tokenType with
    | .ident name => do
      let p2 ← expect ts (p + 1) .lparen "Expected '(' after function name"
      let (mr, p3) := consumeIf ts p2 .rparen
      let (params, p4) ←
        (if mr then .ok ([], p3)
        else do
          let (params, px) ← paramsLoop fuel ts p2
          let py ← expect ts px .rparen "Expected ')' after parameters"
          .ok (params, py)
        : Except ParserError (List (String × Typ) × Nat))
      let (ma, p5) := consumeIf ts p4 .arrow
      let (returnType, p6) ←
        (if ma then parseType fuel ts p5 else .ok (.void, p5)
        : Except ParserError (Typ × Nat))
      let p7 ← expect ts p6 .colon "Expected ':' after function signature"
      let p8 ← expect ts p7 .newline "Expected newline after function definition"
      let (body, p9) ← parseBlock fuel ts p8
      .ok (.functionDefinition isPublic name params returnType body, p9)
    | _ => .error (mkError ts p "Expected function name after 'def'")
  termination_by structural fuel => fuel

/-- The parameter loop of `parse_function_definition` (parser.rs lines
403-411), in emit style. -/
def paramsLoop : Nat → List Token → Nat → Except ParserError (List (String × Typ) × Nat)
  | 0, _, _ => .error ⟨"parser fuel exhausted", 0, 0⟩
  | fuel + 1, ts, pos =>
    match (currentToken ts pos).tokenType with
    | .ident paramName => do
      let p ← expect ts (pos + 1) .colon "Expected ':' after parameter name"
      let (paramType, p2) ← parseType fuel ts p
      let (mc, p3) := consumeIf ts p2 .comma
      if mc then do
        let (rest, p4) ← paramsLoop fuel ts p3
        .ok ((paramName, paramType) :: rest, p4)
      else .ok ([(paramName, paramType)], p3)
    | _ => .error (mkError ts pos "Expected parameter name")
  termination_by structural fuel => fuel

/-- `Parser::parse_if_statement` (parser.rs lines 427-440). -/
def parseIfStatement : Nat → List Token → Nat → Except ParserError (Stmt × Nat)
  | 0, _, _ => .error ⟨"parser fuel exhausted", 0, 0⟩
  | fuel + 1, ts, pos => do
    let p ← expect ts pos .ifKw "Expected 'if'"
    let (condition, p2) ← parseExpression fuel ts p
    let p3 ← expect ts p2 .colon "Expected ':' after if condition"
    let p4 ← expect ts p3 .newline "Expected newline after if colon"
    let (consequence, p5) ← parseBlock fuel ts p4
    let (me, p6) := consumeIf ts p5 .elseKw
    if me then do
      let p7 ← expect ts p6 .colon "Expected ':' after 'else'"
      let p8 ← expect ts p7 .newline "Expected newline after else colon"
      let (alternative, p9) ← parseBlock fuel ts p8
      .ok (.ifS condition consequence (some alternative), p9)
    else .ok (.ifS condition consequence none, p6)
  termination_by structural fuel => fuel

/-- `Parser::parse_while_statement` (parser.rs lines 442-449). -/
def parseWhileStatement : Nat → List Token → Nat → Except ParserError (Stmt × Nat)
  | 0, _, _ => .error ⟨"parser fuel exhausted", 0, 0⟩
  | fuel + 1, ts, pos => do
    let p ← expect ts pos .whileKw "Expected 'while'"
    let (condition, p2) ← parseExpression fuel ts p
    let p3 ← expect ts p2 .colon "Expected ':' after while condition"
    let p4 ← expect ts p3 .newline "Expected newline after while colon"
    let (body, p5) ← parseBlock fuel ts p4
    .ok (.whileS condition body, p5)
  termination_by structural fuel => fuel

/-- `Parser::parse_for_statement` (parser.rs lines 451-464). -/
def parseForStatement : Nat → List Token → Nat → Except ParserError (Stmt × Nat)
  | 0, _, _ => .error ⟨"parser fuel exhausted", 0, 0⟩
  | fuel + 1, ts, pos => do
    let p ← expect ts pos .forKw "Expected 'for'"
    match (currentToken ts p).tokenType with
    | .ident iterator => do
      let p2 ← expect ts (p + 1) .inKw "Expected 'in' after iterator"
      let (start, p3) ← parseExpression fuel ts p2
      let p4 ← expect ts p3 .range "Expected '..' range operator"
      let (stop, p5) ← parseExpression fuel ts p4
      let p6 ← expect ts p5 .colon "Expected ':' after range"
      let p7 ← expect ts p6 .newline "Expected newline after for colon"
      let (body, p8) ← parseBlock fuel ts p7
      .ok (.forS iterator start stop body, p8)
    | _ => .error (mkError ts p "Expected iterator name after 'for'")
  termination_by structural fuel => fuel

/-- `Parser::parse_import_statement` (parser.rs lines 466-475). -/
def parseImportStatement : Nat → List Token → Nat → Except ParserError (Stmt × Nat)
  | 0, _, _ => .error ⟨"parser fuel exhausted", 0, 0⟩
  | _fuel + 1, ts, pos => do
    let p ← expect ts pos .importKw "Expected 'import'"
    match (currentToken ts p).tokenType with
    | .str path => .ok (.importS path, p + 1)
    | _ => .error (mkError ts p "Expected string literal for import path")

/-- `Parser::parse_class_statement` (parser.rs lines 477-486). -/
def parseClassStatement : Nat → Bool → List Token → Nat → Except ParserError (Stmt × Nat)
  | 0, _, _, _ => .error ⟨"parser fuel exhausted", 0, 0⟩
  | fuel + 1, isPublic, ts, pos => do
    let p ← expect ts pos .classKw "Expected 'class'"
    match (currentToken ts p).tokenType with
    | .ident name => do
      let p2 ← expect ts (p + 1) .colon "Expected ':' after class name"
      let p3 ← expect ts p2 .newline "Expected newline after class definition"
      let (members, p4) ← parseClassBlock fuel ts p3
      .ok (.classS isPublic name members, p4)
    | _ => .error (mkError ts p "Expected class name")
  termination_by structural fuel => fuel

/-- `Parser::parse_try_catch_statement` (parser.rs lines 488-507). -/
def parseTryCatchStatement : Nat → List Token → Nat → Except ParserError (Stmt × Nat)
  | 0, _, _ => .error ⟨"parser fuel exhausted", 0, 0⟩
  | fuel + 1, ts, pos => do
    let p ← expect ts pos .tryKw "Expected 'try'"
    let p2 ← expect ts p .colon "Expected ':' after 'try'"
    let p3 ← expect ts p2 .newline "Expected newline after 'try:'"
    let (tryBlock, p4) ← parseBlock fuel ts p3
    let p5 ← expect ts p4 .catchKw "Expected 'catch'"
    match (currentToken ts p5).tokenType with
    | .ident catchVar => do
      let p6 ← expect ts (p5 + 1) .colon "Expected ':' after catch variable"
      let p7 ← expect ts p6 .newline "Expected newline after 'catch ...:'"
      let (catchBlock, p8) ← parseBlock fuel ts p7
      .ok (.tryCatch tryBlock catchVar catchBlock, p8)
    | _ => .error (mkError ts p5 "Expected identifier for catch variable")
  termination_by structural fuel => fuel

/-- The top-level statement loop of `Parser::parse` (parser.rs lines
563-570), in emit style. -/
def progLoop : Nat → List Token → Nat → Except ParserError (List Stmt × Nat)
  | 0, _, _ => .error ⟨"parser fuel exhausted", 0, 0⟩
  | fuel + 1, ts, pos =>
    if (currentToken ts pos).tokenType = .eof then .ok ([], pos)
    else
      let (mn, p) := consumeIf ts pos .newline
      if mn then progLoop fuel ts p
      else do
        let (st, p2) ← parseStatement fuel ts pos
        let (rest, p3) ← progLoop fuel ts p2
        .ok (st :: rest, p3)

  termination_by structural fuel => fuel
end

/-- `Parser::parse` (parser.rs lines 563-570) from a fresh parser at
cursor 0. -/
def parseProgram (fuel : Nat) (ts : List Token) : Except ParserError Program :=
  match progLoop fuel ts 0 with
  | .error e => .error e
  | .ok (sts, _) => .ok (Program.mk sts)

/-! General lemmas about the `Except` monad used to unfold the
parser's do-blocks. -/

@[simp]
theorem ebind_ok {α β ε : Type} (a : α) (f : α → Except ε β) :
    (do let x ← Except.ok a; f x) = f a := rfl

@[simp]
theorem ebind_error {α β ε : Type} (e : ε) (f : α → Except ε β) :
    (do let x ← (Except.error e : Except ε α); f x) = Except.error e := rfl

/-! Claim C10: the synthesized EOF token of `current_token`. -/

/-- C10: for every token slice and every cursor position at or past its
end, `Parser::current_token` returns a synthesized EOF token with line 0
and column 0; consequently a `ParserError` produced after the cursor
runs off a slice lacking a terminating EOF token carries position
line 0, column 0 (outside the 1-based convention), as the parse of the
empty slice shows. -/
theorem currentToken_eof_synthesis :
    (∀ (ts : List Token) (pos : Nat), ts.length ≤ pos →
      currentToken ts pos = Token.mk .eof 0 0) ∧
    parseExpression 5 ([] : List Token) 0 =
      .error ⟨"Expected a primary expression, got EOF", 0, 0⟩ := by
  refine ⟨fun ts pos h => ?_, rfl⟩
  simp [currentToken, List.getElem?_eq_none h]

/-- Witness for C10 at the concrete slice `[]` and cursor 3. -/
theorem currentToken_eof_synthesis_witness :
    currentToken ([] : List Token) 3 = Token.mk .eof 0 0 ∧
    parseExpression 5 ([] : List Token) 0 =
      .error ⟨"Expected a primary expression, got EOF", 0, 0⟩ :=
  ⟨currentToken_eof_synthesis.1 [] 3 (by decide), currentToken_eof_synthesis.2⟩

/-! Claim C2: precedence climbing, left associativity and the
precedence table. -/

/-- The ten binary operator lexemes. -/
def binOpLexemes : List String :=
  ["+", "-", "*", "/", "==", "!=", ">", "<", ">=", "<="]

/-- The `BinaryOperator` a lexeme maps to (total restriction of
`token_to_binary_op` to the ten lexemes). -/
def binOpOf : String → BinOp
  | "-" => .subtract
  | "*" => .multiply
  | "/" => .divide
  | "==" => .equal
  | "!=" => .notEqual
  | ">" => .greaterThan
  | "<" => .lessThan
  | ">=" => .greaterThanEqual
  | "<=" => .lessThanEqual
  | _ => .add

/-- C2: infix chains are left-associative at equal precedence and
follow the precedence table. For every two operator lexemes of equal
precedence, the chain `a o1 b o2 c` parses as
`BinaryOp(o2, BinaryOp(o1, a, b), c)` (the climber enters the right
operand with minimum precedence one above the operator's, so the
right operand stops before `o2`); moreover `a + b * c` parses as
`Add(a, Mul(b, c))`, `a * b + c` as `Add(Mul(a, b), c)`, and
`a == b + c` as `Equal(a, Add(b, c))`. -/
theorem binop_left_assoc_and_precedence :
    (∀ o1 ∈ binOpLexemes, ∀ o2 ∈ binOpLexemes,
      getPrecedence (.op o1) = getPrecedence (.op o2) →
      parseExpression 16 [⟨.ident "a", 1, 1⟩, ⟨.op o1, 1, 3⟩, ⟨.ident "b", 1, 5⟩,
          ⟨.op o2, 1, 7⟩, ⟨.ident "c", 1, 9⟩, ⟨.eof, 1, 10⟩] 0 =
        .ok (.binaryOp (binOpOf o2) (.binaryOp (binOpOf o1) (.ident "a") (.ident "b"))
          (.ident "c"), 5)) ∧
    parseExpression 16 [⟨.ident "a", 1, 1⟩, ⟨.op "+", 1, 3⟩, ⟨.ident "b", 1, 5⟩,
        ⟨.op "*", 1, 7⟩, ⟨.ident "c", 1, 9⟩, ⟨.eof, 1, 10⟩] 0 =
      .ok (.binaryOp .add (.ident "a")
        (.binaryOp .multiply (.ident "b") (.ident "c")), 5) ∧
    parseExpression 16 [⟨.ident "a", 1, 1⟩, ⟨.op "*", 1, 3⟩, ⟨.ident "b", 1, 5⟩,
        ⟨.op "+", 1, 7⟩, ⟨.ident "c", 1, 9⟩, ⟨.eof, 1, 10⟩] 0 =
      .ok (.binaryOp .add (.binaryOp .multiply (.ident "a") (.ident "b"))
        (.ident "c"), 5) ∧
    parseExpression 16 [⟨.ident "a", 1, 1⟩, ⟨.op "==", 1, 3⟩, ⟨.ident "b", 1, 6⟩,
        ⟨.op "+", 1, 8⟩, ⟨.ident "c", 1, 10⟩, ⟨.eof, 1, 11⟩] 0 =
      .ok (.binaryOp .equal (.ident "a")
        (.binaryOp .add (.ident "b") (.ident "c")), 5) := by
  refine ⟨fun o1 h1 o2 h2 hp => ?_, rfl, rfl, rfl⟩
  fin_cases h1 <;> fin_cases h2 <;>
    first
      | rfl
      | exact absurd hp (by decide)

/-- Witness for C2 at the operator pair `+`, `-`. -/
theorem binop_left_assoc_and_precedence_witness :
    parseExpression 16 [⟨.ident "a", 1, 1⟩, ⟨.op "+", 1, 3⟩, ⟨.ident "b", 1, 5⟩,
        ⟨.op "-", 1, 7⟩, ⟨.ident "c", 1, 9⟩, ⟨.eof, 1, 10⟩] 0 =
      .ok (.binaryOp .subtract (.binaryOp .add (.ident "a") (.ident "b"))
        (.ident "c"), 5) :=
  binop_left_assoc_and_precedence.1 "+" (by decide) "-" (by decide) (by decide)

/-! Claim C7: the postfix chain is left-nested in source order. -/

/-- One postfix operation: a call, an indexing, or a member access. -/
inductive PostOp where
  | callP (args : List Expr)
  | indexP (idx : Expr)
  | getP (name : String)

/-- Apply one postfix operation to the expression built so far. -/
def applyPost (e : Expr) : PostOp → Expr
  | .callP args => .call e args
  | .indexP idx => .index e idx
  | .getP name => .get e name

/-- Rewrite a matching `consume_if` to its result. -/
theorem consumeIf_pos (ts : List Token) (pos : Nat) (tt : TokenType)
    (h : (currentToken ts pos).tokenType = tt) : consumeIf ts pos tt = (true, pos + 1) := by
  simp [consumeIf, h]

/-- Rewrite a non-matching `consume_if` to its result. -/
theorem consumeIf_neg (ts : List Token) (pos : Nat) (tt : TokenType)
    (h : ¬ (currentToken ts pos).tokenType = tt) : consumeIf ts pos tt = (false, pos) := by
  simp [consumeIf, h]

theorem consumeIf_fst_pos (ts : List Token) (pos : Nat) (tt : TokenType)
    (h : (currentToken ts pos).tokenType = tt) : (consumeIf ts pos tt).1 = true := by
  rw [consumeIf_pos ts pos tt h]

theorem consumeIf_snd_pos (ts : List Token) (pos : Nat) (tt : TokenType)
    (h : (currentToken ts pos).tokenType = tt) : (consumeIf ts pos tt).2 = pos + 1 := by
  rw [consumeIf_pos ts pos tt h]

theorem consumeIf_fst_neg (ts : List Token) (pos : Nat) (tt : TokenType)
    (h : ¬ (currentToken ts pos).tokenType = tt) : (consumeIf ts pos tt).1 = false := by
  rw [consumeIf_neg ts pos tt h]

theorem consumeIf_snd_neg (ts : List Token) (pos : Nat) (tt : TokenType)
    (h : ¬ (currentToken ts pos).tokenType = tt) : (consumeIf ts pos tt).2 = pos := by
  rw [consumeIf_neg ts pos tt h]

/-- Every successful run of the postfix loop returns a left fold of
postfix operations over the primary it started from: the chain is
left-nested in the order the loop consumed it. -/
theorem postfixLoop_foldl (fuel : Nat) :
    ∀ (e : Expr) (ts : List Token) (pos : Nat) (e' : Expr) (pos' : Nat),
      postfixLoop fuel e ts pos = .ok (e', pos') →
      ∃ items : List PostOp, e' = items.foldl applyPost e := by
  induction fuel with
  | zero => intro e ts pos e' pos' h; simp [postfixLoop] at h
  | succ fuel ih =>
    intro e ts pos e' pos' h
    simp only [postfixLoop] at h
    by_cases h1 : (currentToken ts pos).tokenType = .lparen
    · rw [consumeIf_fst_pos ts pos _ h1, consumeIf_snd_pos ts pos _ h1] at h
      simp only [if_true] at h
      by_cases h2 : (currentToken ts (pos + 1)).tokenType = .rparen
      · rw [consumeIf_fst_pos ts (pos + 1) _ h2, consumeIf_snd_pos ts (pos + 1) _ h2] at h
        simp only [if_true] at h
        obtain ⟨items, hi⟩ := ih _ _ _ _ _ h
        exact ⟨.callP [] :: items, by simpa [applyPost] using hi⟩
      · rw [consumeIf_fst_neg ts (pos + 1) _ h2] at h
        simp only [Bool.false_eq_true, if_false] at h
        cases ha : argsLoop fuel ts (pos + 1) with
        | error err => simp [ha] at h
        | ok v =>
          obtain ⟨args, p3⟩ := v
          simp only [ha, ebind_ok] at h
          cases he : expect ts p3 .rparen "Expected ')' after function arguments" with
          | error err => simp [he] at h
          | ok p4 =>
            simp only [he, ebind_ok] at h
            obtain ⟨items, hi⟩ := ih _ _ _ _ _ h
            exact ⟨.callP args :: items, by simpa [applyPost] using hi⟩
    · rw [consumeIf_fst_neg ts pos _ h1] at h
      simp only [Bool.false_eq_true, if_false] at h
      by_cases h2 : (currentToken ts pos).tokenType = .lbracket
      · rw [consumeIf_fst_pos ts pos _ h2, consumeIf_snd_pos ts pos _ h2] at h
        simp only [if_true] at h
        cases hi : parseExpression fuel ts (pos + 1) with
        | error err => simp [hi] at h
        | ok v =>
          obtain ⟨idx, p2⟩ := v
          simp only [hi, ebind_ok] at h
          cases he : expect ts p2 .rbracket "Expected ']' after index expression" with
          | error err => simp [he] at h
          | ok p3 =>
            simp only [he, ebind_ok] at h
            obtain ⟨items, hfold⟩ := ih _ _ _ _ _ h
            exact ⟨.indexP idx :: items, by simpa [applyPost] using hfold⟩
      · rw [consumeIf_fst_neg ts pos _ h2] at h
        simp only [Bool.false_eq_true, if_false] at h
        by_cases h3 : (currentToken ts pos).tokenType = .dot
        · rw [consumeIf_fst_pos ts pos _ h3, consumeIf_snd_pos ts pos _ h3] at h
          simp only [if_true] at h
          split at h
          · obtain ⟨items, hfold⟩ := ih _ _ _ _ _ h
            exact ⟨.getP _ :: items, by simpa [applyPost] using hfold⟩
          · simp at h
        · rw [consumeIf_fst_neg ts pos _ h3] at h
          simp only [Bool.false_eq_true, if_false, Except.ok.injEq,
            Prod.mk.injEq] at h
          exact ⟨[], h.1.symm⟩

/-- C7: every chain of postfix operators (call, index, member access)
is parsed as a left fold over the primary, so the AST is left-nested in
source order; in particular `a.b(1)[2].c` parses as
`Get(Index(Call(Get(Identifier("a"), "b"), [Literal(Int(1))]),
Literal(Int(2))), "c")`. -/
theorem postfix_chain_left_nested :
    (∀ (fuel : Nat) (e : Expr) (ts : List Token) (pos : Nat) (e' : Expr) (pos' : Nat),
      postfixLoop fuel e ts pos = .ok (e', pos') →
      ∃ items : List PostOp, e' = items.foldl applyPost e) ∧
    parseExpression 20 [⟨.ident "a", 1, 1⟩, ⟨.dot, 1, 2⟩, ⟨.ident "b", 1, 3⟩,
        ⟨.lparen, 1, 4⟩, ⟨.int 1, 1, 5⟩, ⟨.rparen, 1, 6⟩, ⟨.lbracket, 1, 7⟩,
        ⟨.int 2, 1, 8⟩, ⟨.rbracket, 1, 9⟩, ⟨.dot, 1, 10⟩, ⟨.ident "c", 1, 11⟩,
        ⟨.eof, 1, 12⟩] 0 =
      .ok (.get (.index (.call (.get (.ident "a") "b") [.lit (.int 1)])
        (.lit (.int 2))) "c", 11) :=
  ⟨postfixLoop_foldl, rfl⟩

/-- Witness for C7: the loop run on `a.b` returns the fold of one
member access over the identifier. -/
theorem postfix_chain_left_nested_witness :
    ∃ items : List PostOp,
      Expr.get (.ident "a") "b" = items.foldl applyPost (.ident "a") :=
  postfix_chain_left_nested.1 3 (.ident "a")
    [⟨.dot, 1, 2⟩, ⟨.ident "b", 1, 3⟩] 0 (.get (.ident "a") "b") 2 rfl

/-! Claims C1, C4, C9: the f-string body loop against its two-phase
specification. -/

@[simp]
theorem epure_def {α ε : Type} (a : α) : (pure a : Except ε α) = Except.ok a := rfl

/-- Map lemmas for `Except`. -/
@[simp]
theorem emap_ok {α β ε : Type} (f : α → β) (a : α) :
    Except.map f (Except.ok a : Except ε α) = Except.ok (f a) := rfl

@[simp]
theorem emap_error {α β ε : Type} (f : α → β) (e : ε) :
    Except.map f (Except.error e : Except ε α) = Except.error e := rfl

/-- Forward refinement: a successful run of the interleaved f-string
loop yields exactly the fold data of the spec's two-phase reading:
the body splits into parts and every part's expression is the one the
spec prescribes. -/
theorem parseFStringGo_ok_split (inner : List Char → Except ParserError Expr)
    (errL errC : Nat) :
    ∀ (fuel : Nat) (s : List Char) (es : List Expr),
      parseFStringGo inner errL errC fuel s = .ok es →
      ∃ ps, splitFGo fuel s = some ps ∧ ps.mapM (specPartExpr inner) = .ok es := by
  intro fuel
  induction fuel with
  | zero => intro s es h; simp [parseFStringGo] at h
  | succ fuel ih =>
    intro s es h
    simp only [parseFStringGo] at h
    cases hr : s.dropWhile notBrace with
    | nil =>
      rw [hr] at h
      dsimp only at h
      by_cases hl : s.takeWhile notBrace = []
      · rw [if_pos hl, Except.ok.injEq] at h
        subst h
        refine ⟨[], ?_, rfl⟩
        simp only [splitFGo]
        rw [hr]
        dsimp only
        rw [if_pos hl]
      · rw [if_neg hl, Except.ok.injEq] at h
        subst h
        refine ⟨[.lit (s.takeWhile notBrace)], ?_, rfl⟩
        simp only [splitFGo]
        rw [hr]
        dsimp only
        rw [if_neg hl]
    | cons c tail =>
      rw [hr] at h
      dsimp only at h
      cases hp : scanPlaceholder tail 1 with
      | none => rw [hp] at h; simp at h
      | some pr =>
        obtain ⟨content, rest'⟩ := pr
        rw [hp] at h
        dsimp only at h
        cases hin : inner content with
        | error e1 => simp [hin] at h
        | ok e1 =>
          simp only [hin, ebind_ok] at h
          cases hrec : parseFStringGo inner errL errC fuel rest' with
          | error e2 => simp [hrec] at h
          | ok ps' =>
            simp only [hrec, ebind_ok, Except.ok.injEq] at h
            obtain ⟨qs, hsplit, hmap⟩ := ih rest' ps' hrec
            by_cases hl : s.takeWhile notBrace = []
            · rw [if_pos hl, List.nil_append] at h
              subst h
              refine ⟨.ph content :: qs, ?_, ?_⟩
              · simp only [splitFGo]
                rw [hr]
                dsimp only
                rw [hp]
                dsimp only
                rw [hsplit]
                dsimp only [Option.map]
                rw [if_pos hl, List.nil_append]
              · simp only [List.mapM_cons, specPartExpr, hin, emap_ok, ebind_ok,
                  hmap, epure_def]
            · rw [if_neg hl, List.cons_append, List.nil_append] at h
              subst h
              refine ⟨.lit (s.takeWhile notBrace) :: .ph content :: qs, ?_, ?_⟩
              · simp only [splitFGo]
                rw [hr]
                dsimp only
                rw [hp]
                dsimp only
                rw [hsplit]
                dsimp only [Option.map]
                rw [if_neg hl, List.cons_append, List.nil_append]
              · simp only [List.mapM_cons, specPartExpr, hin, emap_ok, ebind_ok,
                  hmap, epure_def]

/-- Backward refinement: whenever the spec's two-phase reading
succeeds, the interleaved loop of the code returns the same parts. -/
theorem splitFGo_parseFStringGo (inner : List Char → Except ParserError Expr)
    (errL errC : Nat) :
    ∀ (fuel : Nat) (s : List Char) (ps : List FPart) (es : List Expr),
      splitFGo fuel s = some ps → ps.mapM (specPartExpr inner) = .ok es →
      parseFStringGo inner errL errC fuel s = .ok es := by
  intro fuel
  induction fuel with
  | zero => intro s ps es hs; simp [splitFGo] at hs
  | succ fuel ih =>
    intro s ps es hs hm
    simp only [splitFGo] at hs
    simp only [parseFStringGo]
    cases hr : s.dropWhile notBrace with
    | nil =>
      rw [hr] at hs
      dsimp only at hs
      dsimp only
      by_cases hl : s.takeWhile notBrace = []
      · rw [if_pos hl, Option.some.injEq] at hs
        subst hs
        simp only [List.mapM_nil, epure_def, Except.ok.injEq] at hm
        rw [if_pos hl, ← hm]
      · rw [if_neg hl, Option.some.injEq] at hs
        subst hs
        simp only [List.mapM_cons, specPartExpr, ebind_ok, List.mapM_nil, epure_def,
          Except.ok.injEq] at hm
        rw [if_neg hl, ← hm]
    | cons c tail =>
      rw [hr] at hs
      dsimp only at hs
      dsimp only
      cases hp : scanPlaceholder tail 1 with
      | none => rw [hp] at hs; simp at hs
      | some pr =>
        obtain ⟨content, rest'⟩ := pr
        rw [hp] at hs
        dsimp only at hs
        dsimp only
        cases hq : splitFGo fuel rest' with
        | none => rw [hq] at hs; simp at hs
        | some qs =>
          rw [hq] at hs
          dsimp only [Option.map] at hs
          rw [Option.some.injEq] at hs
          subst hs
          by_cases hl : s.takeWhile notBrace = []
          · rw [if_pos hl, List.nil_append] at hm
            simp only [List.mapM_cons, specPartExpr] at hm
            cases hin : inner content with
            | error e1 => simp [hin] at hm
            | ok e1 =>
              simp only [hin, emap_ok, ebind_ok] at hm
              cases hqs : qs.mapM (specPartExpr inner) with
              | error e2 => rw [hqs] at hm; simp at hm
              | ok es' =>
                rw [hqs] at hm
                simp only [ebind_ok, epure_def, Except.ok.injEq] at hm
                rw [ebind_ok, ih rest' qs es' hq hqs, ebind_ok, if_pos hl,
                  List.nil_append, ← hm]
          · rw [if_neg hl, List.cons_append, List.nil_append] at hm
            simp only [List.mapM_cons, specPartExpr] at hm
            cases hin : inner content with
            | error e1 => simp [hin] at hm
            | ok e1 =>
              simp only [hin, emap_ok, ebind_ok] at hm
              cases hqs : qs.mapM (specPartExpr inner) with
              | error e2 => rw [hqs] at hm; simp at hm
              | ok es' =>
                rw [hqs] at hm
                simp only [ebind_ok, epure_def, Except.ok.injEq] at hm
                rw [ebind_ok, ih rest' qs es' hq hqs, ebind_ok, if_neg hl,
                  List.cons_append, List.nil_append, ← hm]

/-- C1: the parser expands every f-string token into the left-fold of
its body's in-order parts: the interleaved code loop succeeds with
exactly the part expressions of the spec's two-phase reading (literal
segments as string literals, placeholders as `to_string` calls around
their parse), and the parts are folded left-associatively with `Add`
(`foldParts`, the empty body yielding `Literal(String(""))`). In
particular `f"x={n}"` parses equal to the expression
`"x=" + to_string(n)`, and `f""` parses to `Literal(String(""))`. -/
theorem fstring_expansion :
    (∀ (inner : List Char → Except ParserError Expr) (errL errC fuel : Nat)
      (s : List Char) (es : List Expr),
      parseFStringGo inner errL errC fuel s = .ok es ↔
      ∃ ps, splitFGo fuel s = some ps ∧ ps.mapM (specPartExpr inner) = .ok es) ∧
    parseExpression 20 [⟨.fstring "x=\x7bn\x7d", 1, 1⟩, ⟨.eof, 1, 9⟩] 0 =
      .ok (.binaryOp .add (.lit (.str "x="))
        (.call (.ident "to_string") [.ident "n"]), 1) ∧
    parseExpression 20 [⟨.str "x=", 1, 1⟩, ⟨.op "+", 1, 6⟩, ⟨.ident "to_string", 1, 8⟩,
        ⟨.lparen, 1, 17⟩, ⟨.ident "n", 1, 18⟩, ⟨.rparen, 1, 19⟩, ⟨.eof, 1, 20⟩] 0 =
      .ok (.binaryOp .add (.lit (.str "x="))
        (.call (.ident "to_string") [.ident "n"]), 6) ∧
    parseExpression 20 [⟨.fstring "", 1, 1⟩, ⟨.eof, 1, 4⟩] 0 =
      .ok (.lit (.str ""), 1) := by
  refine ⟨fun inner errL errC fuel s es => ⟨fun h => ?_, fun hx => ?_⟩, rfl, rfl, rfl⟩
  · exact parseFStringGo_ok_split inner errL errC fuel s es h
  · obtain ⟨ps, h1, h2⟩ := hx
    exact splitFGo_parseFStringGo inner errL errC fuel s ps es h1 h2

/-- Witness for C1: the refinement applied to the one-character body
`x` under an inner parser that always returns `Identifier("n")`. -/
theorem fstring_expansion_witness :
    ∃ ps, splitFGo 2 ['x'] = some ps ∧
      ps.mapM (specPartExpr (fun _ => .ok (.ident "n"))) = .ok [.lit (.str "x")] :=
  (fstring_expansion.1 (fun _ => .ok (.ident "n")) 0 0 2 ['x'] [.lit (.str "x")]).mp rfl

/-! Claim C4: the unclosed-brace error of an f-string. -/

/-- Splitting a literal run off a body whose first placeholder starts
right after it. -/
theorem takeWhile_notBrace_append (lit tail : List Char) (h : '\x7b' ∉ lit) :
    (lit ++ '\x7b' :: tail).takeWhile notBrace = lit ∧
    (lit ++ '\x7b' :: tail).dropWhile notBrace = '\x7b' :: tail := by
  induction lit with
  | nil => simp [List.takeWhile_cons, List.dropWhile_cons, notBrace]
  | cons c cs ih =>
    have hc : c ≠ '\x7b' := fun hcv => h (hcv ▸ List.mem_cons_self c cs)
    have hcs : '\x7b' ∉ cs := fun hv => h (List.mem_cons_of_mem c hv)
    obtain ⟨ht, hd⟩ := ih hcs
    constructor
    · simpa [List.takeWhile_cons, notBrace, hc] using ht
    · simpa [List.dropWhile_cons, notBrace, hc] using hd

/-- When the first opening brace of the body is unclosed, the body loop
fails immediately with the unclosed-brace error at the given error
position. -/
theorem parseFStringGo_first_unclosed (inner : List Char → Except ParserError Expr)
    (errL errC fuel : Nat) (lit tail : List Char)
    (hlit : '\x7b' ∉ lit) (hscan : scanPlaceholder tail 1 = none) :
    parseFStringGo inner errL errC (fuel + 1) (lit ++ '\x7b' :: tail) =
      .error ⟨"Unclosed '\x7b' in f-string", errL, errC⟩ := by
  obtain ⟨ht, hd⟩ := takeWhile_notBrace_append lit tail hlit
  simp only [parseFStringGo]
  rw [hd]
  dsimp only
  rw [hscan]

/-- C4 (amended): an unclosed `\x7b` in an f-string body means the body
loop can never succeed; when the first `\x7b` of the body is the
unclosed one it fails with the "Unclosed '\x7b' in f-string" error at
the error position the loop was given - which, as
`parse_expression_primary` consumes the f-string token before building
that error, is the position of the token following the f-string, not
the f-string's own. -/
theorem fstring_unclosed_brace_error :
    (∀ (inner : List Char → Except ParserError Expr) (errL errC fuel : Nat)
      (s : List Char) (es : List Expr), splitFGo fuel s = none →
      parseFStringGo inner errL errC fuel s ≠ .ok es) ∧
    (∀ (inner : List Char → Except ParserError Expr) (errL errC fuel : Nat)
      (lit tail : List Char), '\x7b' ∉ lit → scanPlaceholder tail 1 = none →
      parseFStringGo inner errL errC (fuel + 1) (lit ++ '\x7b' :: tail) =
        .error ⟨"Unclosed '\x7b' in f-string", errL, errC⟩) ∧
    (∀ (fuel l c : Nat) (lit tail : List Char) (nxt : Token) (rest : List Token),
      '\x7b' ∉ lit → scanPlaceholder tail 1 = none →
      parseExpressionPrimary (fuel + 1)
        (Token.mk (.fstring (String.mk (lit ++ '\x7b' :: tail))) l c :: nxt :: rest) 0 =
        .error ⟨"Unclosed '\x7b' in f-string", nxt.line, nxt.column⟩) := by
  refine ⟨?_, parseFStringGo_first_unclosed, ?_⟩
  · intro inner errL errC fuel s es hnone h
    obtain ⟨ps, hsome, _⟩ := parseFStringGo_ok_split inner errL errC fuel s es h
    rw [hnone] at hsome
    exact Option.noConfusion hsome
  · intro fuel l c lit tail nxt rest hlit hscan
    simp only [parseExpressionPrimary]
    dsimp only [currentToken, List.get?, Option.getD, String.toList, String.length,
      String.mk]
    rw [parseFStringGo_first_unclosed _ _ _ _ lit tail hlit hscan]
    rfl

/-- Counterexample to C4 as stated: for the f-string token `f"{x"` at
line 1, column 1 followed by its EOF token at line 1, column 6, the
unclosed-brace error carries position (1, 6) - the token after the
f-string - and 6 is not the f-string's own column 1. -/
theorem fstring_unclosed_brace_error_cex :
    parseExpression 20 [⟨.fstring "\x7bx", 1, 1⟩, ⟨.eof, 1, 6⟩] 0 =
      .error ⟨"Unclosed '\x7b' in f-string", 1, 6⟩ ∧ (6 : Nat) ≠ 1 :=
  ⟨rfl, by decide⟩

/-- Witness for C4 (amended) at the body `{x` with the following token
at line 1, column 6. -/
theorem fstring_unclosed_brace_error_witness :
    parseExpressionPrimary 6
      [Token.mk (.fstring (String.mk ('\x7b' :: ['x']))) 1 1, ⟨.eof, 1, 6⟩] 0 =
      .error ⟨"Unclosed '\x7b' in f-string", 1, 6⟩ :=
  fstring_unclosed_brace_error.2.2 5 1 1 [] ['x'] ⟨.eof, 1, 6⟩ []
    (by decide) rfl

/-! Claim C9: a literal open brace cannot be written in an f-string. -/

/-- Literal text segments produced by the body split never contain an
opening brace. -/
theorem splitFGo_lit_no_brace :
    ∀ (fuel : Nat) (s : List Char) (ps : List FPart),
      splitFGo fuel s = some ps → ∀ l, FPart.lit l ∈ ps → '\x7b' ∉ l := by
  intro fuel
  induction fuel with
  | zero => intro s ps hs; simp [splitFGo] at hs
  | succ fuel ih =>
    intro s ps hs
    have htake : '\x7b' ∉ s.takeWhile notBrace := by
      intro hmem
      have := List.mem_takeWhile_imp hmem
      simp [notBrace] at this
    simp only [splitFGo] at hs
    cases hr : s.dropWhile notBrace with
    | nil =>
      rw [hr] at hs
      dsimp only at hs
      by_cases hl : s.takeWhile notBrace = []
      · rw [if_pos hl, Option.some.injEq] at hs
        subst hs
        intro l hmem
        simp at hmem
      · rw [if_neg hl, Option.some.injEq] at hs
        subst hs
        intro l hmem
        simp only [List.mem_singleton, FPart.lit.injEq] at hmem
        subst hmem
        exact htake
    | cons c tail =>
      rw [hr] at hs
      dsimp only at hs
      cases hp : scanPlaceholder tail 1 with
      | none => rw [hp] at hs; simp at hs
      | some pr =>
        obtain ⟨content, rest'⟩ := pr
        rw [hp] at hs
        dsimp only at hs
        cases hq : splitFGo fuel rest' with
        | none => rw [hq] at hs; simp at hs
        | some qs =>
          rw [hq] at hs
          dsimp only [Option.map] at hs
          rw [Option.some.injEq] at hs
          subst hs
          intro l hmem
          by_cases hl : s.takeWhile notBrace = []
          · rw [if_pos hl, List.nil_append] at hmem
            rcases List.mem_cons.mp hmem with h1 | h1
            · exact absurd h1 (by simp)
            · exact ih rest' qs hq l h1
          · rw [if_neg hl, List.cons_append, List.nil_append] at hmem
            rcases List.mem_cons.mp hmem with h1 | h1
            · rw [FPart.lit.injEq] at h1
              subst h1
              exact htake
            · rcases List.mem_cons.mp h1 with h2 | h2
              · exact absurd h2 (by simp)
              · exact ih rest' qs hq l h2

/-- C9: a literal open brace cannot be written in an f-string. The
lexer's escape handling passes the escaped brace through as a plain
`\x7b` in the raw body (`f"\{"` lexes to an FString token whose body is
the single character `\x7b`), and the body parser treats every `\x7b`
as opening a placeholder, so whenever the f-string body loop succeeds
the body splits into parts whose literal text segments contain no
`\x7b`. -/
theorem fstring_no_literal_brace :
    tokenize ['f', '"', '\\', '\x7b', '"'] =
      .ok [⟨.fstring (String.mk ['\x7b']), 1, 1⟩, ⟨.eof, 1, 6⟩] ∧
    (∀ (inner : List Char → Except ParserError Expr) (errL errC fuel : Nat)
      (s : List Char) (es : List Expr),
      parseFStringGo inner errL errC fuel s = .ok es →
      ∃ ps, splitFGo fuel s = some ps ∧ ∀ l, FPart.lit l ∈ ps → '\x7b' ∉ l) := by
  refine ⟨rfl, fun inner errL errC fuel s es h => ?_⟩
  obtain ⟨ps, hsome, _⟩ := parseFStringGo_ok_split inner errL errC fuel s es h
  exact ⟨ps, hsome, splitFGo_lit_no_brace fuel s ps hsome⟩

/-- Witness for C9 at the one-character body `x` under an inner parser
that always returns `Identifier("n")`. -/
theorem fstring_no_literal_brace_witness :
    ∃ ps, splitFGo 2 ['x'] = some ps ∧ ∀ l, FPart.lit l ∈ ps → '\x7b' ∉ l :=
  fstring_no_literal_brace.2 (fun _ => .ok (.ident "n")) 0 0 2 ['x']
    [.lit (.str "x")] rfl

/-! Claim C8: classification of class members. -/

/-- Invert a successful `Except` bind. -/
theorem ebind_ok_inv {α β ε : Type} {m : Except ε α} {k : α → Except ε β} {b : β}
    (h : (do let x ← m; k x) = .ok b) : ∃ a, m = .ok a ∧ k a = .ok b := by
  cases m with
  | error e => simp at h
  | ok a => exact ⟨a, rfl, by simpa using h⟩

/-- `parse_declaration` only ever returns a Declaration statement, with
the `is_public` flag it was given. -/
theorem parseDeclaration_shape (fuel : Nat) (isPublic : Bool) (ts : List Token)
    (pos : Nat) (s : Stmt) (p' : Nat)
    (h : parseDeclaration fuel isPublic ts pos = .ok (s, p')) :
    ∃ im n t e, s = .declaration isPublic im n t e := by
  match fuel with
  | 0 => simp [parseDeclaration] at h
  | fuel + 1 =>
    simp only [parseDeclaration] at h
    obtain ⟨im, _, h⟩ := ebind_ok_inv h
    split at h
    · obtain ⟨p1, _, h⟩ := ebind_ok_inv h
      obtain ⟨⟨dt, p2⟩, _, h⟩ := ebind_ok_inv h
      obtain ⟨p3, _, h⟩ := ebind_ok_inv h
      obtain ⟨⟨ini, p4⟩, _, h⟩ := ebind_ok_inv h
      simp only [Except.ok.injEq, Prod.mk.injEq] at h
      exact ⟨im, _, dt, ini, h.1.symm⟩
    · simp at h

/-- `parse_function_definition` only ever returns a FunctionDefinition
statement, with the `is_public` flag it was given and the name it
parsed. -/
theorem parseFunctionDefinition_shape (fuel : Nat) (isPublic : Bool) (ts : List Token)
    (pos : Nat) (s : Stmt) (p' : Nat)
    (h : parseFunctionDefinition fuel isPublic ts pos = .ok (s, p')) :
    ∃ n params rt body, s = .functionDefinition isPublic n params rt body := by
  match fuel with
  | 0 => simp [parseFunctionDefinition] at h
  | fuel + 1 =>
    simp only [parseFunctionDefinition] at h
    obtain ⟨p1, _, h⟩ := ebind_ok_inv h
    split at h
    · obtain ⟨p2, _, h⟩ := ebind_ok_inv h
      obtain ⟨⟨params, p4⟩, _, h⟩ := ebind_ok_inv h
      obtain ⟨⟨rt, p6⟩, _, h⟩ := ebind_ok_inv h
      obtain ⟨p7, _, h⟩ := ebind_ok_inv h
      obtain ⟨p8, _, h⟩ := ebind_ok_inv h
      obtain ⟨⟨body, p9⟩, _, h⟩ := ebind_ok_inv h
      simp only [Except.ok.injEq, Prod.mk.injEq] at h
      exact ⟨_, params, rt, body, h.1.symm⟩
    · simp at h

/-- Well-formedness of one parsed class member: a Variable wraps a
Declaration; a Method wraps a FunctionDefinition whose name is not
`init`; a Constructor wraps a FunctionDefinition whose name is `init`. -/
def classMemberOK : ClassMember → Prop
  | .variable s => ∃ ip im n t e, s = .declaration ip im n t e
  | .method s => ∃ ip n params rt body, s = .functionDefinition ip n params rt body ∧
      n ≠ "init"
  | .constructor s => ∃ ip params rt body, s = .functionDefinition ip "init" params rt body

/-- Every member list produced by the class-body loop is well
classified. -/
theorem classLoop_members (fuel : Nat) :
    ∀ (ts : List Token) (pos : Nat) (ms : List ClassMember) (pos' : Nat),
      classLoop fuel ts pos = .ok (ms, pos') → ∀ m ∈ ms, classMemberOK m := by
  induction fuel with
  | zero => intro ts pos ms pos' h; simp [classLoop] at h
  | succ fuel ih =>
    intro ts pos ms pos' h
    simp only [classLoop] at h
    split at h
    · obtain ⟨p1, _, h⟩ := ebind_ok_inv h
      simp only [Except.ok.injEq, Prod.mk.injEq] at h
      intro m hm
      rw [← h.1] at hm
      simp at hm
    · split at h
      · obtain ⟨p1, _, h⟩ := ebind_ok_inv h
        simp only [Except.ok.injEq, Prod.mk.injEq] at h
        intro m hm
        rw [← h.1] at hm
        simp at hm
      · split at h
        · -- val
          obtain ⟨⟨decl, p3⟩, hdecl, h⟩ := ebind_ok_inv h
          obtain ⟨⟨rest, p4⟩, hrest, h⟩ := ebind_ok_inv h
          simp only [Except.ok.injEq, Prod.mk.injEq] at h
          intro m hm
          rw [← h.1] at hm
          rcases List.mem_cons.mp hm with h1 | h1
          · subst h1
            obtain ⟨im, n, t, e, hd⟩ := parseDeclaration_shape _ _ _ _ _ _ hdecl
            exact ⟨_, im, n, t, e, hd⟩
          · exact ih _ _ _ _ hrest m h1
        · -- var
          obtain ⟨⟨decl, p3⟩, hdecl, h⟩ := ebind_ok_inv h
          obtain ⟨⟨rest, p4⟩, hrest, h⟩ := ebind_ok_inv h
          simp only [Except.ok.injEq, Prod.mk.injEq] at h
          intro m hm
          rw [← h.1] at hm
          rcases List.mem_cons.mp hm with h1 | h1
          · subst h1
            obtain ⟨im, n, t, e, hd⟩ := parseDeclaration_shape _ _ _ _ _ _ hdecl
            exact ⟨_, im, n, t, e, hd⟩
          · exact ih _ _ _ _ hrest m h1
        · -- def
          obtain ⟨⟨fd, p3⟩, hfd, h⟩ := ebind_ok_inv h
          obtain ⟨n0, params, rt, body, hshape⟩ :=
            parseFunctionDefinition_shape _ _ _ _ _ _ hfd
          subst hshape
          dsimp only at h
          obtain ⟨⟨rest, p4⟩, hrest, h⟩ := ebind_ok_inv h
          dsimp only at h
          by_cases hname : n0 = "init"
          · rw [if_pos hname] at h
            simp only [Except.ok.injEq, Prod.mk.injEq] at h
            intro m hm
            rw [← h.1] at hm
            rcases List.mem_cons.mp hm with h1 | h1
            · subst h1
              exact ⟨_, params, rt, body, by rw [hname]⟩
            · exact ih _ _ _ _ hrest m h1
          · rw [if_neg hname] at h
            simp only [Except.ok.injEq, Prod.mk.injEq] at h
            intro m hm
            rw [← h.1] at hm
            rcases List.mem_cons.mp hm with h1 | h1
            · subst h1
              exact ⟨_, n0, params, rt, body, rfl, hname⟩
            · exact ih _ _ _ _ hrest m h1
        · simp at h

/-- C8: in a class body, a member introduced by `val`/`var` is
classified as Variable (wrapping the parsed Declaration), and a member
introduced by `def` is classified as Constructor exactly when the
parsed function's name is `init` and as Method otherwise; shown for
every successful class-body parse, and on a concrete class body with a
field `v`, a constructor `init` and a method `m`. -/
theorem class_member_classification :
    (∀ (fuel : Nat) (ts : List Token) (pos : Nat) (ms : List ClassMember) (pos' : Nat),
      parseClassBlock fuel ts pos = .ok (ms, pos') → ∀ m ∈ ms, classMemberOK m) ∧
    parseClassBlock 30
      [⟨.indent, 1, 1⟩, ⟨.valKw, 1, 1⟩, ⟨.ident "v", 1, 1⟩, ⟨.colon, 1, 1⟩,
       ⟨.typeName "int", 1, 1⟩, ⟨.assign, 1, 1⟩, ⟨.int 0, 1, 1⟩, ⟨.newline, 1, 1⟩,
       ⟨.defKw, 1, 1⟩, ⟨.ident "init", 1, 1⟩, ⟨.lparen, 1, 1⟩, ⟨.rparen, 1, 1⟩,
       ⟨.colon, 1, 1⟩, ⟨.newline, 1, 1⟩, ⟨.indent, 1, 1⟩, ⟨.breakKw, 1, 1⟩,
       ⟨.newline, 1, 1⟩, ⟨.dedent, 1, 1⟩, ⟨.newline, 1, 1⟩,
       ⟨.defKw, 1, 1⟩, ⟨.ident "m", 1, 1⟩, ⟨.lparen, 1, 1⟩, ⟨.rparen, 1, 1⟩,
       ⟨.colon, 1, 1⟩, ⟨.newline, 1, 1⟩, ⟨.indent, 1, 1⟩, ⟨.breakKw, 1, 1⟩,
       ⟨.newline, 1, 1⟩, ⟨.dedent, 1, 1⟩, ⟨.newline, 1, 1⟩, ⟨.dedent, 1, 1⟩,
       ⟨.eof, 1, 1⟩] 0 =
      .ok ([.variable (.declaration false false "v" .int (.lit (.int 0))),
        .constructor (.functionDefinition false "init" [] .void [.breakS]),
        .method (.functionDefinition false "m" [] .void [.breakS])], 31) := by
  refine ⟨fun fuel ts pos ms pos' h => ?_, rfl⟩
  match fuel with
  | 0 => simp [parseClassBlock] at h
  | fuel + 1 =>
    simp only [parseClassBlock] at h
    obtain ⟨p1, _, h⟩ := ebind_ok_inv h
    exact classLoop_members fuel ts p1 ms pos' h

/-- Witness for C8 at an empty class body (Indent directly followed by
Dedent). -/
theorem class_member_classification_witness :
    ∀ m ∈ ([] : List ClassMember), classMemberOK m :=
  class_member_classification.1 3 [⟨.indent, 1, 1⟩, ⟨.dedent, 2, 1⟩, ⟨.eof, 2, 1⟩]
    0 [] 2 rfl

/-! Claim C6: the column of the "multiple decimal points" error. -/

/-- A decimal digit is not a letter. -/
theorem digit_not_alpha (c : Char) (h : c.isDigit = true) : c.isAlpha = false := by
  simp only [Char.isDigit, Bool.and_eq_true, decide_eq_true_eq] at h
  have h2 : c.val.toNat ≤ 57 := h.2
  simp only [Char.isAlpha, Char.isUpper, Char.isLower, Bool.or_eq_false_iff,
    Bool.and_eq_false_iff, decide_eq_false_iff_not]
  constructor
  · left
    intro hle
    have h3 : (65 : Nat) ≤ c.val.toNat := hle
    omega
  · left
    intro hle
    have h3 : (97 : Nat) ≤ c.val.toNat := hle
    omega

/-- The number scanner consumes a run of digits, advancing the column
one per digit and accumulating them. -/
theorem scanNum_digits (ds : List Char) :
    ∀ (l : List Char) (line col : Nat) (acc : List Char) (isF : Bool),
      (∀ c ∈ ds, c.isDigit = true) →
      scanNum (ds ++ l) line col acc isF =
        scanNum l line (col + ds.length) (ds.reverse ++ acc) isF := by
  induction ds with
  | nil => intro l line col acc isF _; simp
  | cons d ds' ih =>
    intro l line col acc isF hd
    have hdd : d.isDigit = true := hd d (List.mem_cons_self d ds')
    have hds' : ∀ c ∈ ds', c.isDigit = true := fun c hc => hd c (List.mem_cons_of_mem d hc)
    rw [List.cons_append]
    simp only [scanNum]
    rw [if_pos hdd, ih l line (col + 1) (d :: acc) isF hds', List.length_cons,
      List.reverse_cons, List.append_assoc, List.singleton_append,
      show col + 1 + ds'.length = col + (ds'.length + 1) from by omega]

/-- Consuming the first decimal point: when the next character is a
digit, the scanner flips to float mode and moves on. -/
theorem scanNum_first_dot (e : Char) (l : List Char) (line col : Nat) (acc : List Char)
    (he : e.isDigit = true) :
    scanNum ('.' :: e :: l) line col acc false =
      scanNum (e :: l) line (col + 1) ('.' :: acc) true := by
  simp only [scanNum, reduceIte]
  rw [if_neg (by decide : ¬(('.' : Char).isDigit = true))]
  split
  · rename_i heq
    rw [List.cons.injEq] at heq
    rw [heq.1] at he
    exact absurd he (by decide)
  · exact if_neg (by decide)

/-- The second decimal point of the same number: the scanner fails with
"Invalid number: multiple decimal points" at the lexer's current
position, the position of that second dot. -/
theorem scanNum_second_dot (rest : List Char) (line col : Nat) (acc : List Char)
    (hr : ∀ c cs, rest = c :: cs → c ≠ '.') :
    scanNum ('.' :: rest) line col acc true =
      .error ⟨"Invalid number: multiple decimal points", line, col⟩ := by
  simp only [scanNum, reduceIte]
  rw [if_neg (by decide : ¬(('.' : Char).isDigit = true))]
  cases rest with
  | nil => rfl
  | cons c cs =>
    split
    · rename_i heq
      rw [List.cons.injEq] at heq
      exact absurd heq.1 (hr c cs rfl)
    · rfl

/-- A digit enters the number branch of the scanner; a number-scanner
error is the token scanner's result. -/
theorem scanToken_digit_error (d : Char) (cs : List Char) (line col : Nat)
    (e : LexerError) (hd : d.isDigit = true)
    (herr : scanNum (d :: cs) line col [] false = .error e) :
    scanToken d cs line col = .error e := by
  have hne : ∀ c0 : Char, c0.isDigit = false → d ≠ c0 := by
    intro c0 hc0 hdc
    rw [hdc, hc0] at hd
    exact Bool.false_ne_true hd
  have h1 : ¬(d = ' ' ∨ d = '\r' ∨ d = '\t') := by
    rintro (rfl | rfl | rfl) <;> exact absurd hd (by decide)
  have h13 : ¬(d = '>' ∨ d = '<' ∨ d = '!') := by
    rintro (rfl | rfl | rfl) <;> exact absurd hd (by decide)
  have h14 : ¬(d = '+' ∨ d = '*' ∨ d = '/') := by
    rintro (rfl | rfl | rfl) <;> exact absurd hd (by decide)
  have halpha : ¬(d.isAlpha = true) := by
    rw [digit_not_alpha d hd]
    exact Bool.false_ne_true
  simp only [scanToken, if_neg h1, if_neg (hne '\n' (by decide)),
    if_neg (hne ':' (by decide)), if_neg (hne '(' (by decide)),
    if_neg (hne ')' (by decide)), if_neg (hne '[' (by decide)),
    if_neg (hne ']' (by decide)), if_neg (hne '\x7b' (by decide)),
    if_neg (hne '\x7d' (by decide)), if_neg (hne ',' (by decide)),
    if_neg (hne '=' (by decide)), if_neg (hne '.' (by decide)), if_neg h13,
    if_neg h14, if_neg (hne '-' (by decide)), if_neg (hne '#' (by decide)),
    if_neg (hne '"' (by decide)), if_neg (hne 'f' (by decide)), if_neg halpha,
    if_pos hd, herr]

/-- Line-start handling is a no-op at base indentation when the line
begins with a digit. -/
theorem lineStart_digit (d : Char) (rest : List Char) (line : Nat)
    (hd : d.isDigit = true) :
    lineStart (d :: rest) line 1 [0] = .ok ([], d :: rest, 1, [0]) := by
  have h1 : d ≠ ' ' := by rintro rfl; exact absurd hd (by decide)
  have h2 : d ≠ '\t' := by rintro rfl; exact absurd hd (by decide)
  have h3 : ¬(d = '\n' ∨ d = '\r') := by
    rintro (rfl | rfl) <;> exact absurd hd (by decide)
  simp only [lineStart, if_pos rfl, countIndent, if_neg h1, if_neg h2, if_neg h3]
  norm_num

/-- C6 (amended): for every numeric literal `d1.d2.` with a second
decimal point (digit runs `d1`, `d2`, the second dot not the start of a
`..` range token), lexing fails with "Invalid number: multiple decimal
points" at line 1 and the column of the second dot itself - the
lexer's current column, `|d1| + |d2| + 2` - not at the column of the
number's first character. -/
theorem number_second_dot_column (d1 d2 rest : List Char)
    (h1 : d1 ≠ []) (h2 : d2 ≠ [])
    (hd1 : ∀ c ∈ d1, c.isDigit = true) (hd2 : ∀ c ∈ d2, c.isDigit = true)
    (hr : ∀ c cs, rest = c :: cs → c ≠ '.') :
    tokenize (d1 ++ '.' :: (d2 ++ '.' :: rest)) =
      .error ⟨"Invalid number: multiple decimal points", 1,
        d1.length + d2.length + 2⟩ := by
  obtain ⟨d, d1', rfl⟩ : ∃ d d1', d1 = d :: d1' := by
    cases d1 with
    | nil => exact absurd rfl h1
    | cons d d1' => exact ⟨d, d1', rfl⟩
  obtain ⟨e, d2', rfl⟩ : ∃ e d2', d2 = e :: d2' := by
    cases d2 with
    | nil => exact absurd rfl h2
    | cons e d2' => exact ⟨e, d2', rfl⟩
  have hd : d.isDigit = true := hd1 d (List.mem_cons_self d d1')
  have he : e.isDigit = true := hd2 e (List.mem_cons_self e d2')
  have herr : scanNum ((d :: d1') ++ '.' :: ((e :: d2') ++ '.' :: rest)) 1 1 [] false =
      .error ⟨"Invalid number: multiple decimal points", 1,
        (d :: d1').length + (e :: d2').length + 2⟩ := by
    rw [scanNum_digits (d :: d1') ('.' :: ((e :: d2') ++ '.' :: rest)) 1 1 [] false hd1]
    rw [List.cons_append]
    rw [scanNum_first_dot e (d2' ++ '.' :: rest) 1 (1 + (d :: d1').length) _ he]
    rw [show e :: (d2' ++ '.' :: rest) = (e :: d2') ++ '.' :: rest from rfl]
    rw [scanNum_digits (e :: d2') ('.' :: rest) 1 _ _ true hd2]
    rw [scanNum_second_dot rest 1 _ _ hr]
    congr 2
    omega
  have hinput : (d :: d1') ++ '.' :: ((e :: d2') ++ '.' :: rest) =
      d :: (d1' ++ '.' :: ((e :: d2') ++ '.' :: rest)) := rfl
  simp only [tokenize, hinput]
  rw [show (d :: (d1' ++ '.' :: ((e :: d2') ++ '.' :: rest))).length + 1 =
    (d1' ++ '.' :: ((e :: d2') ++ '.' :: rest)).length + 1 + 1 from by simp]
  simp only [lexLoop]
  rw [lineStart_digit d _ 1 hd]
  dsimp only
  rw [scanToken_digit_error d _ 1 1 _ hd (by rw [← hinput]; exact herr)]

/-- Counterexample to C6 as stated: lexing `1.2.3` reports the
multiple-decimal-points error at column 4, the position of the second
dot, not at column 1, the first character of the number. -/
theorem number_second_dot_column_cex :
    tokenize ['1', '.', '2', '.', '3'] =
      .error ⟨"Invalid number: multiple decimal points", 1, 4⟩ ∧ (4 : Nat) ≠ 1 :=
  ⟨rfl, by decide⟩

/-- Witness for C6 (amended) at the input `1.2.3`. -/
theorem number_second_dot_column_witness :
    tokenize ['1', '.', '2', '.', '3'] =
      .error ⟨"Invalid number: multiple decimal points", 1, 4⟩ :=
  number_second_dot_column ['1'] ['2'] ['3'] (by decide) (by decide)
    (by decide) (by decide) (fun c cs hcs => by cases hcs; decide)

/-! Claim C3: Indent/Dedent balance of the token stream. -/

/-- Contribution of one token kind to the running Indent minus Dedent
count. -/
def tokDelta : TokenType → Int
  | .indent => 1
  | .dedent => -1
  | _ => 0

/-- The Indent minus Dedent count of a token list. -/
def balSum (ts : List Token) : Int :=
  (ts.map (fun t => tokDelta t.tokenType)).sum

/-- The indent stack is well formed: non-empty with base level 0 at the
bottom (it starts as `vec![0]` and the base is never popped). -/
def goodStack (st : List Nat) : Prop := st ≠ [] ∧ st.getLast? = some 0

theorem goodStack_length {st : List Nat} (h : goodStack st) : 1 ≤ st.length :=
  List.length_pos.mpr h.1

theorem goodStack_cons {w : Nat} {st : List Nat} (h : goodStack st) :
    goodStack (w :: st) := by
  obtain ⟨s, st', rfl⟩ : ∃ s st', st = s :: st' := by
    cases st with
    | nil => exact absurd rfl h.1
    | cons s st' => exact ⟨s, st', rfl⟩
  exact ⟨List.cons_ne_nil _ _, by rw [List.getLast?_cons_cons]; exact h.2⟩

theorem balSum_append (a b : List Token) : balSum (a ++ b) = balSum a + balSum b := by
  simp [balSum]

theorem balSum_zero_of (l : List Token) (h : ∀ t ∈ l, tokDelta t.tokenType = 0) :
    balSum l = 0 := by
  refine List.sum_eq_zero ?_
  intro x hx
  obtain ⟨t, ht, rfl⟩ := List.mem_map.mp hx
  exact h t ht

theorem balSum_take_zero_of (l : List Token) (n : Nat)
    (h : ∀ t ∈ l, tokDelta t.tokenType = 0) : balSum (l.take n) = 0 :=
  balSum_zero_of _ (fun t ht => h t (List.take_subset n l ht))

theorem balSum_replicate_dedent (j line col : Nat) :
    balSum (List.replicate j (Token.mk .dedent line col)) = -(j : Int) := by
  simp [balSum, List.map_replicate, List.sum_replicate, tokDelta]

theorem popDedents_step_lt (w line col t : Nat) (st : List Nat) (hw : w < t) :
    popDedents w line col (t :: st) =
      (Token.mk .dedent line col :: (popDedents w line col st).1,
        (popDedents w line col st).2) := by
  rw [popDedents, if_pos hw]

theorem popDedents_step_ge (w line col t : Nat) (st : List Nat) (hw : ¬ w < t) :
    popDedents w line col (t :: st) = ([], t :: st) := by
  rw [popDedents, if_neg hw]

/-- The dedent-popping loop emits exactly one Dedent per popped level
and preserves stack well-formedness. -/
theorem popDedents_spec (w line col : Nat) :
    ∀ (stack : List Nat), goodStack stack →
      ∃ j, (popDedents w line col stack).1 =
          List.replicate j (Token.mk .dedent line col) ∧
        stack.length = (popDedents w line col stack).2.length + j ∧
        goodStack (popDedents w line col stack).2 := by
  intro stack
  induction stack with
  | nil => intro h; exact absurd rfl h.1
  | cons t st ih =>
    intro hg
    by_cases hw : w < t
    · cases st with
      | nil =>
        have ht0 : t = 0 := by
          have := hg.2
          simp at this
          exact this
        omega
      | cons s st'' =>
        have hg' : goodStack (s :: st'') := by
          refine ⟨List.cons_ne_nil _ _, ?_⟩
          have := hg.2
          rw [List.getLast?_cons_cons] at this
          exact this
        obtain ⟨j, h1, h2, h3⟩ := ih hg'
        rw [popDedents_step_lt w line col t (s :: st'') hw]
        refine ⟨j + 1, ?_, ?_, ?_⟩
        · dsimp only
          rw [h1, List.replicate_succ]
        · dsimp only
          simp only [List.length_cons] at h2 ⊢
          omega
        · exact h3
    · rw [popDedents_step_ge w line col t st hw]
      exact ⟨0, rfl, by simp, hg⟩

/-- Line-start handling: the emitted tokens are pure Indent/Dedent
bookkeeping whose balance is exactly the change in stack depth, and no
prefix dips below that change (nor below zero). -/
theorem lineStart_spec (input : List Char) (line col : Nat) (stack : List Nat)
    (A : List Token) (inp' : List Char) (col' : Nat) (st' : List Nat)
    (hg : goodStack stack)
    (h : lineStart input line col stack = .ok (A, inp', col', st')) :
    goodStack st' ∧ balSum A = (st'.length : Int) - stack.length ∧
    ∀ n, min ((st'.length : Int) - stack.length) 0 ≤ balSum (A.take n) := by
  simp only [lineStart] at h
  by_cases hc : col = 1
  · rw [if_pos hc] at h
    rcases hci : countIndent input 0 with ⟨w, isE, restA⟩
    rw [hci] at h
    dsimp only at h
    cases isE with
    | true =>
      simp only [reduceIte, Except.ok.injEq, Prod.mk.injEq] at h
      obtain ⟨h1, _, _, h4⟩ := h
      subst h1; subst h4
      refine ⟨hg, by simp [balSum], fun n => by simp [balSum]⟩
    | false =>
      simp only [Bool.false_eq_true, if_false] at h
      by_cases hw1 : w > stack.head?.getD 0
      · rw [if_pos hw1] at h
        simp only [Except.ok.injEq, Prod.mk.injEq] at h
        obtain ⟨h1, _, _, h4⟩ := h
        subst h1; subst h4
        refine ⟨goodStack_cons hg, ?_, ?_⟩
        · simp [balSum, tokDelta, List.length_cons]
        · intro n
          cases n with
          | zero => simp [balSum]
          | succ n =>
            simp [balSum, tokDelta, List.length_cons, List.take_succ_cons]
      · rw [if_neg hw1] at h
        by_cases hw2 : w < stack.head?.getD 0
        · rw [if_pos hw2] at h
          obtain ⟨j, hds, hlen, hgood⟩ := popDedents_spec w line col stack hg
          cases hh : (popDedents w line col stack).2.head? with
          | none =>
            rw [hh] at h
            simp at h
          | some t =>
            rw [hh] at h
            dsimp only at h
            by_cases hwt : w = t
            · rw [if_pos hwt] at h
              simp only [Except.ok.injEq, Prod.mk.injEq] at h
              obtain ⟨h1, _, _, h4⟩ := h
              subst h1; subst h4
              refine ⟨hgood, ?_, ?_⟩
              · rw [hds, balSum_replicate_dedent]
                have := goodStack_length hgood
                omega
              · intro n
                rw [hds, List.take_replicate, balSum_replicate_dedent]
                have := goodStack_length hgood
                have hmin : min n j ≤ j := Nat.min_le_right n j
                push_cast
                omega
            · rw [if_neg hwt] at h
              simp at h
        · rw [if_neg hw2] at h
          simp only [Except.ok.injEq, Prod.mk.injEq] at h
          obtain ⟨h1, _, _, h4⟩ := h
          subst h1; subst h4
          exact ⟨hg, by simp [balSum], fun n => by simp [balSum]⟩
  · rw [if_neg hc] at h
    simp only [Except.ok.injEq, Prod.mk.injEq] at h
    obtain ⟨h1, _, _, h4⟩ := h
    subst h1; subst h4
    exact ⟨hg, by simp [balSum], fun n => by simp [balSum]⟩

theorem classify_delta (s : String) : tokDelta (classify s) = 0 := by
  unfold classify
  split <;> rfl

theorem classifyF_delta (s : String) : tokDelta (classifyF s) = 0 := by
  unfold classifyF
  split <;> rfl

theorem okNil_delta {A : List Char} {l k : Nat} {B : List Token}
    {R : List Char} {l' c' : Nat}
    (h : (Except.ok ([], A, l, k) :
        Except LexerError (List Token × List Char × Nat × Nat)) =
      .ok (B, R, l', c')) :
    ∀ t ∈ B, tokDelta t.tokenType = 0 := by
  simp only [Except.ok.injEq, Prod.mk.injEq] at h
  intro t ht
  rw [← h.1] at ht
  simp at ht

theorem okOne_delta {tok : Token} {A : List Char} {l k : Nat} {B : List Token}
    {R : List Char} {l' c' : Nat}
    (h : (Except.ok ([tok], A, l, k) :
        Except LexerError (List Token × List Char × Nat × Nat)) =
      .ok (B, R, l', c'))
    (hd : tokDelta tok.tokenType = 0) :
    ∀ t ∈ B, tokDelta t.tokenType = 0 := by
  simp only [Except.ok.injEq, Prod.mk.injEq] at h
  intro t ht
  rw [← h.1] at ht
  simp only [List.mem_singleton] at ht
  subst ht
  exact hd

/-- The token scanner never emits Indent or Dedent tokens: everything
it emits has balance contribution zero. -/
theorem scanToken_delta (c : Char) (cs : List Char) (line col : Nat)
    (B : List Token) (rest : List Char) (l' c' : Nat)
    (h : scanToken c cs line col = .ok (B, rest, l', c')) :
    ∀ t ∈ B, tokDelta t.tokenType = 0 := by
  rw [scanToken.eq_def] at h
  by_cases h1 : c = ' ' ∨ c = '\r' ∨ c = '\t'
  · rw [if_pos h1] at h
    exact okNil_delta h
  rw [if_neg h1] at h
  by_cases h2 : c = '\n'
  · rw [if_pos h2] at h
    exact okOne_delta h rfl
  rw [if_neg h2] at h
  by_cases h3 : c = ':'
  · rw [if_pos h3] at h
    exact okOne_delta h rfl
  rw [if_neg h3] at h
  by_cases h4 : c = '('
  · rw [if_pos h4] at h
    exact okOne_delta h rfl
  rw [if_neg h4] at h
  by_cases h5 : c = ')'
  · rw [if_pos h5] at h
    exact okOne_delta h rfl
  rw [if_neg h5] at h
  by_cases h6 : c = '['
  · rw [if_pos h6] at h
    exact okOne_delta h rfl
  rw [if_neg h6] at h
  by_cases h7 : c = ']'
  · rw [if_pos h7] at h
    exact okOne_delta h rfl
  rw [if_neg h7] at h
  by_cases h8 : c = '\x7b'
  · rw [if_pos h8] at h
    exact okOne_delta h rfl
  rw [if_neg h8] at h
  by_cases h9 : c = '\x7d'
  · rw [if_pos h9] at h
    exact okOne_delta h rfl
  rw [if_neg h9] at h
  by_cases h10 : c = ','
  · rw [if_pos h10] at h
    exact okOne_delta h rfl
  rw [if_neg h10] at h
  by_cases h11 : c = '='
  · rw [if_pos h11] at h
    repeat' split at h
    all_goals exact okOne_delta h rfl
  rw [if_neg h11] at h
  by_cases h12 : c = '.'
  · rw [if_pos h12] at h
    repeat' split at h
    all_goals exact okOne_delta h rfl
  rw [if_neg h12] at h
  by_cases h13 : c = '>' ∨ c = '<' ∨ c = '!'
  · rw [if_pos h13] at h
    repeat' split at h
    all_goals exact okOne_delta h rfl
  rw [if_neg h13] at h
  by_cases h14 : c = '+' ∨ c = '*' ∨ c = '/'
  · rw [if_pos h14] at h
    exact okOne_delta h rfl
  rw [if_neg h14] at h
  by_cases h15 : c = '-'
  · rw [if_pos h15] at h
    repeat' split at h
    all_goals exact okOne_delta h rfl
  rw [if_neg h15] at h
  by_cases h16 : c = '#'
  · rw [if_pos h16] at h
    rcases hsk : skipComment (c :: cs) col with ⟨r0, k0⟩
    rw [hsk] at h
    dsimp only at h
    exact okNil_delta h
  rw [if_neg h16] at h
  by_cases h17 : c = '"'
  · rw [if_pos h17] at h
    repeat' split at h
    all_goals first
      | exact Except.noConfusion h
      | exact okOne_delta h rfl
  rw [if_neg h17] at h
  by_cases h18 : c = 'f'
  · rw [if_pos h18] at h
    repeat' split at h
    all_goals first
      | exact Except.noConfusion h
      | exact okOne_delta h rfl
      | exact okOne_delta h (classifyF_delta _)
  rw [if_neg h18] at h
  by_cases h19 : c.isAlpha = true
  · rw [if_pos h19] at h
    repeat' split at h
    all_goals exact okOne_delta h (classify_delta _)
  rw [if_neg h19] at h
  by_cases h20 : c.isDigit = true
  · rw [if_pos h20] at h
    repeat' split at h
    all_goals first
      | exact Except.noConfusion h
      | exact okOne_delta h rfl
      | (dsimp only at h
         split at h
         all_goals first
           | exact Except.noConfusion h
           | exact okOne_delta h rfl)
  rw [if_neg h20] at h
  exact Except.noConfusion h

/-- Balance invariant of the main lexer loop: on success the emitted
tokens' balance is exactly the change in indent-stack depth, and no
prefix of them dips below `1 - stack.length` (the depth that would
empty the stack down to its base). -/
theorem lexLoop_balance (fuel : Nat) :
    ∀ (input : List Char) (line col : Nat) (stack : List Nat) (ts : List Token)
      (st' : List Nat) (l' c' : Nat),
      lexLoop fuel input line col stack = .ok (ts, st', l', c') → goodStack stack →
      goodStack st' ∧ balSum ts = (st'.length : Int) - stack.length ∧
      ∀ n, (1 : Int) - stack.length ≤ balSum (ts.take n) := by
  induction fuel with
  | zero => intro input line col stack ts st' l' c' h _; simp [lexLoop] at h
  | succ fuel ih =>
    intro input line col stack ts st' l' c' h hg
    simp only [lexLoop] at h
    cases input with
    | nil =>
      simp only [Except.ok.injEq, Prod.mk.injEq] at h
      obtain ⟨h1, h2, _⟩ := h
      subst h1
      subst h2
      have hlen := goodStack_length hg
      refine ⟨hg, by simp [balSum], fun n => ?_⟩
      simp only [List.take_nil, balSum, List.map_nil, List.sum_nil]
      omega
    | cons c0 cs0 =>
      dsimp only at h
      cases hls : lineStart (c0 :: cs0) line col stack with
      | error e => rw [hls] at h; simp at h
      | ok q =>
        obtain ⟨ts1, input1, col1, stack1⟩ := q
        rw [hls] at h
        dsimp only at h
        obtain ⟨hg1, hbal1, hpre1⟩ := lineStart_spec _ _ _ _ _ _ _ _ hg hls
        have ha := goodStack_length hg
        have hb := goodStack_length hg1
        cases input1 with
        | nil =>
          simp only [Except.ok.injEq, Prod.mk.injEq] at h
          obtain ⟨h1, h2, _⟩ := h
          subst h1
          subst h2
          refine ⟨hg1, hbal1, fun n => ?_⟩
          have hp := hpre1 n
          rcases le_total ((stack1.length : Int) - stack.length) 0 with hmin | hmin
          · rw [min_eq_left hmin] at hp
            omega
          · rw [min_eq_right hmin] at hp
            omega
        | cons c cs =>
          dsimp only at h
          cases hsc : scanToken c cs line col1 with
          | error e => rw [hsc] at h; simp at h
          | ok q2 =>
            obtain ⟨ts2, rest, line2, col2⟩ := q2
            rw [hsc] at h
            dsimp only at h
            cases hrec : lexLoop fuel rest line2 col2 stack1 with
            | error e => rw [hrec] at h; simp at h
            | ok q3 =>
              obtain ⟨ts3, stack3, l3, c3⟩ := q3
              rw [hrec] at h
              dsimp only at h
              simp only [Except.ok.injEq, Prod.mk.injEq] at h
              obtain ⟨h1, h2, _⟩ := h
              subst h1
              subst h2
              obtain ⟨hg3, hbal3, hpre3⟩ := ih rest line2 col2 stack1 ts3 stack3 l3 c3 hrec hg1
              have hd2 := scanToken_delta c cs line col1 ts2 rest line2 col2 hsc
              have hbal2 : balSum ts2 = 0 := balSum_zero_of _ hd2
              have hc3 := goodStack_length hg3
              refine ⟨hg3, ?_, ?_⟩
              · rw [balSum_append, balSum_append, hbal1, hbal2, hbal3]
                omega
              · intro n
                rw [List.take_append_eq_append_take, List.take_append_eq_append_take,
                  balSum_append, balSum_append,
                  balSum_take_zero_of ts2 (n - ts1.length) hd2]
                by_cases hn : n ≤ ts1.length
                · have hz : n - (ts1 ++ ts2).length = 0 := by
                    simp only [List.length_append]
                    omega
                  rw [hz]
                  have hnil : balSum (List.take 0 ts3) = 0 := rfl
                  rw [hnil]
                  have hp := hpre1 n
                  rcases le_total ((stack1.length : Int) - stack.length) 0 with hmin | hmin
                  · rw [min_eq_left hmin] at hp
                    omega
                  · rw [min_eq_right hmin] at hp
                    omega
                · have hfull : List.take n ts1 = ts1 :=
                    List.take_of_length_le (by omega)
                  rw [hfull, hbal1]
                  have hp3 := hpre3 (n - (ts1 ++ ts2).length)
                  omega

theorem balSum_take_replicate_dedent (m j line col : Nat) :
    balSum (List.take m (List.replicate j (Token.mk .dedent line col))) =
      -((min m j : Nat) : Int) := by
  rw [List.take_replicate]
  exact balSum_replicate_dedent _ _ _

theorem balSum_take_eof (p l c : Nat) :
    balSum (List.take p [Token.mk .eof l c]) = 0 := by
  cases p with
  | zero => rfl
  | succ p =>
    show balSum (Token.mk .eof l c :: List.take p []) = 0
    rw [List.take_nil]
    rfl

/-- C3: on every input where `tokenize` succeeds, the returned token list
keeps the running Indent-minus-Dedent count non-negative on every prefix,
the count over the whole list is exactly zero, and the list ends with one
Dedent per indentation level still open at end of input (their number
equalling the Indent surplus of the preceding tokens) followed by the
final EOF token. -/
theorem indent_dedent_balance (input : List Char) (ts : List Token)
    (h : tokenize input = .ok ts) :
    (∀ n, 0 ≤ balSum (ts.take n)) ∧ balSum ts = 0 ∧
    ∃ body k l c, ts = body ++ List.replicate k (Token.mk .dedent l c) ++
        [Token.mk .eof l c] ∧ balSum body = (k : Int) := by
  rw [tokenize.eq_def] at h
  cases hll : lexLoop (input.length + 1) input 1 1 [0] with
  | error e => rw [hll] at h; exact Except.noConfusion h
  | ok q =>
    obtain ⟨ts0, st0, l0, c0⟩ := q
    rw [hll] at h
    dsimp only at h
    simp only [Except.ok.injEq] at h
    subst h
    have hg : goodStack ([0] : List Nat) := ⟨by decide, rfl⟩
    obtain ⟨hg0, hbal0, hpre0⟩ := lexLoop_balance _ _ _ _ _ _ _ _ _ hll hg
    have hk := goodStack_length hg0
    simp only [List.length_cons, List.length_nil] at hbal0 hpre0
    refine ⟨?_, ?_, ts0, st0.length - 1, l0, c0, rfl, ?_⟩
    · intro n
      rw [List.take_append_eq_append_take, List.take_append_eq_append_take,
        balSum_append, balSum_append, balSum_take_replicate_dedent, balSum_take_eof]
      by_cases hn : n ≤ ts0.length
      · have h1 := hpre0 n
        omega
      · have hfull : List.take n ts0 = ts0 := List.take_of_length_le (by omega)
        rw [hfull]
        omega
    · rw [balSum_append, balSum_append, balSum_replicate_dedent]
      have heof : balSum [Token.mk .eof l0 c0] = 0 := rfl
      rw [heof]
      omega
    · omega

theorem indent_dedent_balance_witness :
    (∀ n, 0 ≤ balSum (([Token.mk (.ident "a") 1 1, Token.mk .newline 1 2,
        Token.mk .indent 2 1, Token.mk (.ident "b") 2 2,
        Token.mk .dedent 2 3, Token.mk .eof 2 3]).take n)) ∧
    balSum [Token.mk (.ident "a") 1 1, Token.mk .newline 1 2,
        Token.mk .indent 2 1, Token.mk (.ident "b") 2 2,
        Token.mk .dedent 2 3, Token.mk .eof 2 3] = 0 ∧
    ∃ body k l c,
      [Token.mk (.ident "a") 1 1, Token.mk .newline 1 2,
        Token.mk .indent 2 1, Token.mk (.ident "b") 2 2,
        Token.mk .dedent 2 3, Token.mk .eof 2 3] =
        body ++ List.replicate k (Token.mk .dedent l c) ++
          [Token.mk .eof l c] ∧ balSum body = (k : Int) :=
  indent_dedent_balance ['a', '\n', ' ', 'b']
    [Token.mk (.ident "a") 1 1, Token.mk .newline 1 2,
      Token.mk .indent 2 1, Token.mk (.ident "b") 2 2,
      Token.mk .dedent 2 3, Token.mk .eof 2 3] rfl


/-! Claim C5: whitespace-and-comment-only sources. -/

/-- Sources consisting only of blank lines (spaces, tabs, carriage
returns closed by a newline), full-line comments starting at column 1
and closed by a newline, and possibly one final comment running to end
of input. -/
inductive BlankSource : List Char → Prop where
  | nil : BlankSource []
  | wsLine (ws rest : List Char)
      (hws : ∀ c ∈ ws, c = ' ' ∨ c = '\t' ∨ c = '\r')
      (h : BlankSource rest) : BlankSource (ws ++ '\n' :: rest)
  | commentLine (cs rest : List Char) (hcs : '\n' ∉ cs)
      (h : BlankSource rest) : BlankSource ('#' :: cs ++ '\n' :: rest)
  | commentEnd (cs : List Char) (hcs : '\n' ∉ cs) : BlankSource ('#' :: cs)

theorem lexLoop_cons (fuel : Nat) (c0 : Char) (cs0 : List Char) (line col : Nat)
    (stack : List Nat) :
    lexLoop (fuel + 1) (c0 :: cs0) line col stack =
      match lineStart (c0 :: cs0) line col stack with
      | .error e => .error e
      | .ok (ts1, input1, col1, stack1) =>
        match input1 with
        | [] => .ok (ts1, stack1, line, col1)
        | c :: cs =>
          match scanToken c cs line col1 with
          | .error e => .error e
          | .ok (ts2, rest, line2, col2) =>
            match lexLoop fuel rest line2 col2 stack1 with
            | .error e => .error e
            | .ok (ts3, stack3, l3, c3) => .ok (ts1 ++ ts2 ++ ts3, stack3, l3, c3) := rfl

theorem countIndent_blank (ws : List Char)
    (hws : ∀ c ∈ ws, c = ' ' ∨ c = '\t' ∨ c = '\r') (rest : List Char) :
    ∀ a, ∃ w r, countIndent (ws ++ '\n' :: rest) a = (w, true, r) := by
  induction ws with
  | nil => intro a; exact ⟨a, '\n' :: rest, rfl⟩
  | cons c ws' ih =>
    intro a
    rcases hws c (List.mem_cons_self c ws') with rfl | rfl | rfl
    · exact ih (fun d hd => hws d (List.mem_cons_of_mem _ hd)) (a + 1)
    · exact ih (fun d hd => hws d (List.mem_cons_of_mem _ hd)) (a + 4)
    · exact ⟨a, '\r' :: (ws' ++ '\n' :: rest), rfl⟩

theorem lineStart_notCol1 (input : List Char) (line col : Nat) (stack : List Nat)
    (h : ¬ col = 1) : lineStart input line col stack = .ok ([], input, col, stack) := by
  rw [lineStart, if_neg h]

theorem lineStart_blank (input : List Char) (line : Nat) (stack : List Nat)
    (w : Nat) (r : List Char) (hci : countIndent input 0 = (w, true, r)) :
    lineStart input line 1 stack = .ok ([], input, 1, stack) := by
  rw [lineStart, if_pos rfl]
  rw [hci]
  rfl

theorem lineStart_hash (cs : List Char) (line : Nat) :
    lineStart ('#' :: cs) line 1 [0] = .ok ([], '#' :: cs, 1, [0]) := rfl

theorem scanToken_ws (c : Char) (hc : c = ' ' ∨ c = '\t' ∨ c = '\r')
    (cs : List Char) (line col : Nat) :
    scanToken c cs line col = .ok ([], cs, line, col + 1) := by
  rcases hc with rfl | rfl | rfl <;> rfl

theorem scanToken_nl (cs : List Char) (line col : Nat) :
    scanToken '\n' cs line col =
      .ok ([Token.mk .newline line col], cs, line + 1, 1) := rfl

theorem skipComment_no_nl (cs : List Char) (hnl : '\n' ∉ cs) :
    ∀ col, skipComment cs col = ([], col + cs.length) := by
  induction cs with
  | nil => intro col; simp [skipComment]
  | cons c cs' ih =>
    intro col
    have hc : ¬ c = '\n' := fun hh => hnl (hh ▸ List.mem_cons_self c cs')
    rw [skipComment, if_neg hc, ih (fun hh => hnl (List.mem_cons_of_mem _ hh))]
    simp only [List.length_cons]
    congr 1
    omega

theorem skipComment_to_nl (cs rest : List Char) (hnl : '\n' ∉ cs) :
    ∀ col, skipComment (cs ++ '\n' :: rest) col = ('\n' :: rest, col + cs.length) := by
  induction cs with
  | nil => intro col; simp [skipComment]
  | cons c cs' ih =>
    intro col
    have hc : ¬ c = '\n' := fun hh => hnl (hh ▸ List.mem_cons_self c cs')
    rw [List.cons_append, skipComment, if_neg hc,
      ih (fun hh => hnl (List.mem_cons_of_mem _ hh))]
    simp only [List.length_cons]
    congr 1
    omega

theorem scanToken_hash (cs r : List Char) (k line col : Nat)
    (hsk : skipComment ('#' :: cs) col = (r, k)) :
    scanToken '#' cs line col = .ok ([], r, line, k) := by
  have hstep : scanToken '#' cs line col =
      (match skipComment ('#' :: cs) col with
        | (rest, col') => .ok ([], rest, line, col')) := rfl
  rw [hstep, hsk]

theorem lexLoop_ws (ws : List Char)
    (hws : ∀ c ∈ ws, c = ' ' ∨ c = '\t' ∨ c = '\r') :
    ∀ (rest0 : List Char) (line col fuel : Nat), 2 ≤ col →
    lexLoop (ws.length + fuel) (ws ++ rest0) line col [0] =
      lexLoop fuel rest0 line (col + ws.length) [0] := by
  induction ws with
  | nil =>
    intro rest0 line col fuel _
    simp
  | cons c ws' ih =>
    intro rest0 line col fuel hcol
    have hc := hws c (List.mem_cons_self c ws')
    have hws' : ∀ d ∈ ws', d = ' ' ∨ d = '\t' ∨ d = '\r' :=
      fun d hd => hws d (List.mem_cons_of_mem _ hd)
    rw [List.length_cons, List.cons_append,
      show ws'.length + 1 + fuel = (ws'.length + fuel) + 1 from by omega,
      lexLoop_cons,
      lineStart_notCol1 _ _ _ _ (by omega)]
    dsimp only
    rw [scanToken_ws c hc]
    dsimp only
    rw [ih hws' rest0 line (col + 1) fuel (by omega)]
    rw [show col + 1 + ws'.length = col + (ws'.length + 1) from by omega]
    cases hres : lexLoop fuel rest0 line (col + (ws'.length + 1)) [0] with
    | error e => rfl
    | ok q =>
      obtain ⟨ts3, st3, l3, c3⟩ := q
      rfl

theorem lexLoop_blank (input : List Char) (h : BlankSource input) :
    ∀ (fuel line : Nat), input.length + 1 ≤ fuel →
    ∃ ts l' c', lexLoop fuel input line 1 [0] = .ok (ts, [0], l', c') ∧
      ∀ t ∈ ts, t.tokenType = .newline := by
  induction h with
  | nil =>
    intro fuel line hf
    obtain ⟨f, rfl⟩ : ∃ f, fuel = f + 1 := ⟨fuel - 1, by omega⟩
    exact ⟨[], line, 1, rfl, by simp⟩
  | wsLine ws rest hws hrest ih =>
    intro fuel line hf
    simp only [List.length_append, List.length_cons] at hf
    obtain ⟨f, rfl⟩ : ∃ f, fuel = f + 1 := ⟨fuel - 1, by omega⟩
    obtain ⟨w0, r0, hci⟩ := countIndent_blank ws hws rest 0
    cases hwse : ws with
    | nil =>
      subst hwse
      rw [List.nil_append] at hci ⊢
      obtain ⟨f2, rfl⟩ : ∃ f2, f = f2 + 1 := ⟨f - 1, by omega⟩
      obtain ⟨ts3, l3, c3, hrec, hnl3⟩ := ih (f2 + 1) (line + 1) (by omega)
      refine ⟨Token.mk .newline line 1 :: ts3, l3, c3, ?_, ?_⟩
      · rw [lexLoop_cons, lineStart_blank _ _ _ _ _ hci]
        dsimp only
        rw [scanToken_nl]
        dsimp only
        rw [hrec]
        rfl
      · intro t ht
        rcases List.mem_cons.mp ht with rfl | ht'
        · rfl
        · exact hnl3 t ht'
    | cons w1 ws' =>
      subst hwse
      have hc1 := hws w1 (List.mem_cons_self w1 ws')
      have hws' : ∀ d ∈ ws', d = ' ' ∨ d = '\t' ∨ d = '\r' :=
        fun d hd => hws d (List.mem_cons_of_mem _ hd)
      obtain ⟨f2, hf2⟩ : ∃ f2, f = ws'.length + (f2 + 1) :=
        ⟨f - ws'.length - 1, by simp only [List.length_cons] at hf; omega⟩
      obtain ⟨ts3, l3, c3, hrec, hnl3⟩ := ih f2 (line + 1) (by
        simp only [List.length_cons] at hf; omega)
      refine ⟨Token.mk .newline line (2 + ws'.length) :: ts3, l3, c3, ?_, ?_⟩
      · rw [List.cons_append, lexLoop_cons,
          lineStart_blank _ _ _ _ _ (by rw [← List.cons_append]; exact hci)]
        dsimp only
        rw [scanToken_ws w1 hc1]
        dsimp only
        rw [hf2, lexLoop_ws ws' hws' ('\n' :: rest) line 2 (f2 + 1) (by omega)]
        rw [lexLoop_cons, lineStart_notCol1 _ _ _ _ (by omega)]
        dsimp only
        rw [scanToken_nl]
        dsimp only
        rw [hrec]
        rfl
      · intro t ht
        rcases List.mem_cons.mp ht with rfl | ht'
        · rfl
        · exact hnl3 t ht'
  | commentLine cs rest hnl hrest ih =>
    intro fuel line hf
    simp only [List.length_cons, List.length_append] at hf
    obtain ⟨f, rfl⟩ : ∃ f, fuel = f + 1 := ⟨fuel - 1, by omega⟩
    obtain ⟨f2, rfl⟩ : ∃ f2, f = f2 + 1 := ⟨f - 1, by omega⟩
    obtain ⟨ts3, l3, c3, hrec, hnl3⟩ := ih f2 (line + 1) (by omega)
    have hnl1 : '\n' ∉ '#' :: cs := by
      intro hmem
      rcases List.mem_cons.mp hmem with hh | hh
      · exact absurd hh (by decide)
      · exact hnl hh
    refine ⟨Token.mk .newline line (1 + ('#' :: cs).length) :: ts3, l3, c3, ?_, ?_⟩
    · rw [List.cons_append, lexLoop_cons, lineStart_hash]
      dsimp only
      rw [scanToken_hash (cs ++ '\n' :: rest) ('\n' :: rest) (1 + ('#' :: cs).length)
        line 1 (skipComment_to_nl ('#' :: cs) rest hnl1 1)]
      dsimp only
      rw [lexLoop_cons, lineStart_notCol1 _ _ _ _ (by simp only [List.length_cons]; omega)]
      dsimp only
      rw [scanToken_nl]
      dsimp only
      rw [hrec]
      rfl
    · intro t ht
      rcases List.mem_cons.mp ht with rfl | ht'
      · rfl
      · exact hnl3 t ht'
  | commentEnd cs hnl =>
    intro fuel line hf
    simp only [List.length_cons] at hf
    obtain ⟨f, rfl⟩ : ∃ f, fuel = f + 1 := ⟨fuel - 1, by omega⟩
    obtain ⟨f2, rfl⟩ : ∃ f2, f = f2 + 1 := ⟨f - 1, by omega⟩
    have hnl1 : '\n' ∉ '#' :: cs := by
      intro hmem
      rcases List.mem_cons.mp hmem with hh | hh
      · exact absurd hh (by decide)
      · exact hnl hh
    refine ⟨[], line, 1 + ('#' :: cs).length, ?_, by simp⟩
    rw [lexLoop_cons, lineStart_hash]
    dsimp only
    rw [scanToken_hash cs [] (1 + ('#' :: cs).length) line 1
      (skipComment_no_nl ('#' :: cs) hnl1 1)]
    dsimp only
    rfl

theorem progLoop_all_newlines (fuel : Nat) :
    ∀ (nls : List Token) (l c pos : Nat),
      (∀ t ∈ nls, t.tokenType = .newline) → pos ≤ nls.length →
      nls.length - pos < fuel →
      progLoop fuel (nls ++ [Token.mk .eof l c]) pos = .ok ([], nls.length) := by
  induction fuel with
  | zero => intro nls l c pos _ _ hlt; omega
  | succ fuel ih =>
    intro nls l c pos hnl hle hlt
    by_cases hpos : pos = nls.length
    · have hcur : currentToken (nls ++ [Token.mk .eof l c]) pos = Token.mk .eof l c := by
        rw [currentToken, hpos, List.get?_concat_length]
        rfl
      rw [progLoop, if_pos (by rw [hcur]), hpos]
    · have hlt2 : pos < nls.length := by omega
      obtain ⟨t, hget⟩ : ∃ t, nls.get? pos = some t :=
        ⟨nls.get ⟨pos, hlt2⟩, List.get?_eq_get hlt2⟩
      have hcur : currentToken (nls ++ [Token.mk .eof l c]) pos = t := by
        rw [currentToken, List.get?_append hlt2, hget]
        rfl
      have htt : t.tokenType = .newline := hnl t (List.get?_mem hget)
      rw [progLoop, if_neg (by rw [hcur, htt]; decide)]
      dsimp only
      rw [show consumeIf (nls ++ [Token.mk .eof l c]) pos .newline = (true, pos + 1) from by
        rw [consumeIf, if_pos (by rw [hcur, htt])]]
      dsimp only
      rw [if_pos rfl]
      exact ih nls l c (pos + 1) hnl (by omega) (by omega)

/-- C5 (amended): for every input made of blank lines (only spaces,
tabs and carriage returns before the terminating newline), full-line
`#` comments starting at column 1, and at most one final `#` comment
running to end of input - including the empty input - lexing succeeds
with a token list consisting only of Newline tokens followed by the
final EOF, and parsing that token list succeeds with the empty program
`Program { statements: [] }`. -/
theorem blank_source_empty_program (input : List Char) (h : BlankSource input) :
    ∃ nls l c, tokenize input = .ok (nls ++ [Token.mk .eof l c]) ∧
      (∀ t ∈ nls, t.tokenType = .newline) ∧
      ∀ fuel, nls.length < fuel →
        parseProgram fuel (nls ++ [Token.mk .eof l c]) = .ok ⟨[]⟩ := by
  obtain ⟨ts, l', c', hlex, hnl⟩ := lexLoop_blank input h (input.length + 1) 1 (by omega)
  refine ⟨ts, l', c', ?_, hnl, ?_⟩
  · rw [tokenize.eq_def, hlex]
    dsimp only
    rw [show ([0] : List Nat).length - 1 = 0 from rfl, List.replicate_zero,
      List.append_nil]
  · intro fuel hfuel
    rw [parseProgram, progLoop_all_newlines fuel ts l' c' 0 hnl (by omega) (by omega)]

/-- Counterexample to C5 as stated: the all-whitespace input `" "`
(one space, no newline) lexes successfully, but to a Indent/Dedent
pair on which parsing fails with "Expected a primary expression, got
Indent" - parsing does not succeed with the empty program. -/
theorem blank_source_cex :
    tokenize [' '] =
      .ok [Token.mk .indent 1 1, Token.mk .dedent 1 2, Token.mk .eof 1 2] ∧
    parseProgram 10 [Token.mk .indent 1 1, Token.mk .dedent 1 2, Token.mk .eof 1 2] =
      .error ⟨"Expected a primary expression, got Indent", 1, 1⟩ :=
  ⟨rfl, rfl⟩

/-- Witness for C5 (amended) at the input `"# c\n \n"`: one comment
line and one blank line. -/
theorem blank_source_empty_program_witness :
    ∃ nls l c,
      tokenize ['#', ' ', 'c', '\n', ' ', '\n'] = .ok (nls ++ [Token.mk .eof l c]) ∧
      (∀ t ∈ nls, t.tokenType = .newline) ∧
      ∀ fuel, nls.length < fuel →
        parseProgram fuel (nls ++ [Token.mk .eof l c]) = .ok ⟨[]⟩ :=
  blank_source_empty_program ['#', ' ', 'c', '\n', ' ', '\n']
    (by
      have h2 : BlankSource ([' '] ++ '\n' :: []) :=
        .wsLine [' '] [] (by intro d hd; simp at hd; exact .inl hd) .nil
      exact .commentLine [' ', 'c'] ([' '] ++ '\n' :: []) (by decide) h2)

end Redline
